import Mathlib

/-!
# Verification of the Syncy room-synchronization server

Shallow embedding of `src/server/index.ts` (the socket server). JavaScript
`Map` objects are modelled as insertion-ordered association lists with the
exact `get`/`set`/`has`/`delete` semantics (a `set` of an existing key
replaces the value in place, preserving the key's position; `delete`
removes the entry). In-place mutation of a room object fetched from the
store is modelled by writing the updated room back at the same key, which
is observationally identical at event-handler granularity (each inbound
message is processed atomically). `Date.now()` is modelled as an integer
parameter `now` (epoch milliseconds) fixed for the processing of one event,
and `new Date().toISOString()` as a string parameter `iso`. Playback
positions (JS floating-point numbers) are modelled as rationals.
-/

/-- A JavaScript `Map`: an insertion-ordered association list. -/
abbrev JsMap (α β : Type) := List (α × β)

namespace JsMap

variable {α β : Type} [DecidableEq α]

/-- `Map.prototype.get`: the value of the (unique) entry for the key. -/
def get : JsMap α β → α → Option β
  | [], _ => none
  | (k', v) :: rest, k => if k' = k then some v else get rest k

/-- `Map.prototype.has`. -/
def has (m : JsMap α β) (k : α) : Bool := (m.get k).isSome

/-- `Map.prototype.set`: replaces the value in place when the key is
present (keeping its position in enumeration order), else appends. -/
def set : JsMap α β → α → β → JsMap α β
  | [], k, v => [(k, v)]
  | (k', v') :: rest, k, v =>
    if k' = k then (k', v) :: rest else (k', v') :: set rest k v

/-- `Map.prototype.delete`: removes the entry for the key. -/
def delete : JsMap α β → α → JsMap α β
  | [], _ => []
  | (k', v') :: rest, k => if k' = k then rest else (k', v') :: delete rest k

/-- `Map.prototype.size`. -/
def size (m : JsMap α β) : Nat := m.length

/-- `Array.from(map.values())`: values in enumeration order. -/
def values (m : JsMap α β) : List β := m.map Prod.snd

/-- Keys in enumeration order. -/
def keys (m : JsMap α β) : List α := m.map Prod.fst

end JsMap

/-! ## JavaScript truthiness helpers -/

/-- JS falsiness of a string-or-undefined/null value (`!x`): true for
`undefined`/`null` (here `none`) and for the empty string. -/
def jsFalsyOptStr : Option String → Bool
  | none => true
  | some s => s = ""

/-- JS `a || b` on strings: `a` unless it is falsy (empty). -/
def jsOrStr (a b : String) : String := if a = "" then b else a

/-- JS `a || b` where `a`, `b` are `string | null | undefined`. -/
def jsOrOpt (a b : Option String) : Option String :=
  match a with
  | some s => if s = "" then b else some s
  | none => b

/-! ## Data model (interfaces `Member`, `Song`, `RoomState`) -/

/-- `interface Member` (line 34). -/
structure Member where
  userId : String
  username : String
  socketId : String
  joinedAt : String
deriving DecidableEq

/-- `interface Song` (line 41). -/
structure Song where
  id : String
  title : String
  artist : String
  url : String
  source : String
  coverUrl : Option String
  duration : Option Rat
deriving DecidableEq

/-- `interface RoomState` (line 46). The TS annotation of `status` is the
union `'playing' | 'paused' | 'idle'`, but the runtime value is whatever
string reaches the field (the `sync_position` handler writes the
client-supplied status through an unchecked cast), so it is modelled as an
arbitrary `String`. -/
structure RoomState where
  members : JsMap String Member
  socketToUser : JsMap String String
  hostUserId : Option String
  currentSong : Option Song
  position : Rat
  status : String
  lastSync : Int
deriving DecidableEq

/-- The default room created by `getRoom` (lines 60–73). -/
def freshRoom (now : Int) : RoomState :=
  { members := [], socketToUser := [], hostUserId := none, currentSong := none,
    position := 0, status := "idle", lastSync := now }

/-- `getCurrentPosition` (lines 75–79): the playback clock. Reads the room at
instant `now` (the `Date.now()` call inside the function); pure — never
mutates the room. -/
def getCurrentPosition (room : RoomState) (now : Int) : Rat :=
  if room.status ≠ "playing" then room.position
  else room.position + ((now : Rat) - (room.lastSync : Rat)) / 1000

/-- Element shape of `serializeMembers`' result (lines 81–88). -/
structure SerializedMember where
  user_id : String
  username : String
  room_id : String
  joined_at : String
deriving DecidableEq

/-- `serializeMembers` (lines 81–88). -/
def serializeMembers (room : RoomState) (roomId : String) : List SerializedMember :=
  room.members.values.map fun m =>
    { user_id := m.userId, username := m.username, room_id := roomId, joined_at := m.joinedAt }

/-! ## Outbound messages and socket.io broadcast channels -/

/-- Broadcast target of an emit: `io.to(roomId)`, `socket.to(roomId)`
(room minus sender), or a single socket (`io.to(socketId)` /
`socket.emit`). -/
inductive OutTarget where
  | toRoom (roomId : String)
  | toRoomExcept (roomId sockId : String)
  | toSocket (sockId : String)
deriving DecidableEq

/-- Inbound `vote` payload: `room_id` plus an opaque rest (relayed
verbatim, never interpreted). -/
structure VoteData where
  room_id : String
  payload : String
deriving DecidableEq

/-- Payloads of the outbound messages, one constructor per event name. -/
inductive Payload where
  | membersUpdate (room_id : String) (members : List SerializedMember)
  | roomState (room_id : String) (currentSong : Option Song) (position : Rat)
      (status : String) (server_time : Int) (members : List SerializedMember)
  | syncPosition (room_id : String) (position : Rat) (status : String) (server_time : Int)
  | songChange (room_id : String) (song : Option Song)
  | nextSong (room_id : String)
  | promotedToHost (room_id : String)
  | voteMsg (data : VoteData)
deriving DecidableEq

/-- One outbound emit. -/
structure OutMsg where
  target : OutTarget
  payload : Payload
deriving DecidableEq

/-- socket.io adapter state: room-channel name → sockets subscribed to it
(`socket.join` / `socket.leave`). -/
abbrev Channels := JsMap String (List String)

/-- Sockets currently subscribed to a room channel. -/
def channelSockets (ch : Channels) (roomId : String) : List String :=
  (ch.get roomId).getD []

/-- `socket.join(roomId)`. -/
def channelJoin (ch : Channels) (roomId sockId : String) : Channels :=
  let cur := channelSockets ch roomId
  ch.set roomId (if sockId ∈ cur then cur else cur ++ [sockId])

/-- `socket.leave(roomId)`. -/
def channelLeave (ch : Channels) (roomId sockId : String) : Channels :=
  ch.set roomId ((channelSockets ch roomId).erase sockId)

/-- Which sockets a broadcast target delivers to, given the adapter
state: `io.to(room)` reaches every subscribed socket, `socket.to(room)`
every subscribed socket except the sender, a socket target exactly that
socket. -/
def deliveredTo (ch : Channels) (t : OutTarget) (sock : String) : Prop :=
  match t with
  | .toRoom r => sock ∈ channelSockets ch r
  | .toRoomExcept r s => sock ∈ channelSockets ch r ∧ sock ≠ s
  | .toSocket s => sock = s

/-! ## Server state -/

/-- The per-connection closure variables `currentRoomId` / `currentUserId`
(lines 93–94). -/
structure ConnState where
  currentRoomId : Option String
  currentUserId : Option String
deriving DecidableEq

/-- The whole server: the global `rooms` map (line 58), the socket.io
adapter's channel membership, and each live connection's closure state. -/
structure ServerState where
  rooms : JsMap String RoomState
  channels : Channels
  conns : JsMap String ConnState
deriving DecidableEq

/-- Server state at startup: no rooms, no connections. -/
def initState : ServerState := { rooms := [], channels := [], conns := [] }

/-- The closure state of a socket (fresh connections start with both
variables `null`). -/
def getConn (st : ServerState) (sockId : String) : ConnState :=
  (st.conns.get sockId).getD { currentRoomId := none, currentUserId := none }

def setConn (st : ServerState) (sockId : String) (c : ConnState) : ServerState :=
  { st with conns := st.conns.set sockId c }

/-! ## Event handlers (lines 99–302) -/

/-- Line 263: `room.socketToUser.get(socket.id) || currentUserId`. -/
def resolveLeaveUser (room : RoomState) (sockId : String) (conn : ConnState) : Option String :=
  jsOrOpt (room.socketToUser.get sockId) conn.currentUserId

/-- Lines 264–272 of `doLeave`: remove the member only if the departing
socket is still that member's current socket, and drop the departing
socket's `socketToUser` entry. -/
def removeOnLeave (room : RoomState) (sockId : String) (userId : Option String) : RoomState :=
  match userId with
  | some u =>
    let room :=
      match room.members.get u with
      | some member =>
        if member.socketId = sockId then
          { room with members := room.members.delete u }
        else room
      | none => room
    { room with socketToUser := room.socketToUser.delete sockId }
  | none => room

/-- Lines 282–291 of `doLeave`: host reassignment. Runs whenever the
departed-socket's resolved user equals `hostUserId` (whether or not a
member entry was actually removed); the successor is the first member in
the map's enumeration order. -/
def reassignHost (room : RoomState) (roomId : String) (userId : Option String) :
    RoomState × List OutMsg :=
  if room.hostUserId = userId then
    match room.members.values.head? with
    | some newHost =>
      ({ room with hostUserId := some newHost.userId },
       [⟨OutTarget.toSocket newHost.socketId, Payload.promotedToHost roomId⟩])
    | none => ({ room with hostUserId := none }, [])
  else (room, [])

/-- `doLeave` (lines 258–302). Returns the new server state, the departing
socket's updated closure state, and the emitted messages, in order. -/
def doLeave (st : ServerState) (sockId : String) (conn : ConnState) (roomId : String) :
    ServerState × ConnState × List OutMsg :=
  match st.rooms.get roomId with
  | none => (st, conn, [])
  | some room =>
    let userId := resolveLeaveUser room sockId conn
    let room := removeOnLeave room sockId userId
    let st := { st with channels := channelLeave st.channels roomId sockId }
    if room.members.size = 0 then
      ({ st with rooms := st.rooms.delete roomId }, conn, [])
    else
      let rp := reassignHost room roomId userId
      let st := { st with rooms := st.rooms.set roomId rp.1 }
      let allMsgs := rp.2 ++
        [⟨OutTarget.toRoom roomId, Payload.membersUpdate roomId (serializeMembers rp.1 roomId)⟩]
      let conn :=
        if conn.currentRoomId = some roomId then
          ({ currentRoomId := none, currentUserId := none } : ConnState)
        else conn
      (st, conn, allMsgs)

/-- Lines 121–123 of the `join_room` handler: the stored `joinedAt` — the
prior value on re-join (`?.joinedAt ?? new Date().toISOString()`), the
current instant's ISO string on first join. -/
def upsertJoinedAt (room : RoomState) (user_id iso : String) : String :=
  if room.members.has user_id then ((room.members.get user_id).map Member.joinedAt).getD iso
  else iso

/-- Lines 114–131 of the `join_room` handler: member upsert (deduplicated
by userId, `joinedAt` preserved on re-join, socket id overwritten),
`socketToUser` binding, and first-member-becomes-host. -/
def upsertMember (room : RoomState) (sockId user_id username iso : String) : RoomState :=
  let room :=
    { room with
      members := room.members.set user_id
        ({ userId := user_id, username := jsOrStr username "Anonymous",
           socketId := sockId, joinedAt := upsertJoinedAt room user_id iso }),
      socketToUser := room.socketToUser.set sockId user_id }
  if jsFalsyOptStr room.hostUserId then { room with hostUserId := some user_id } else room

/-- Lines 105–107 of the `join_room` handler: implicit leave from the
connection's previous room when it differs from the one being joined. -/
def joinLeaveRes (st : ServerState) (sockId room_id : String) :
    ServerState × ConnState × List OutMsg :=
  match (getConn st sockId).currentRoomId with
  | some prev =>
    if prev ≠ room_id then doLeave st sockId (getConn st sockId) prev
    else (st, getConn st sockId, [])
  | none => (st, getConn st sockId, [])

/-- Lines 109–149 of the `join_room` handler after the implicit leave:
set the closure variables, `socket.join`, `getRoom` (create-if-absent is
the `getD (freshRoom now)` with the final write-back), member upsert,
and the two emits. -/
def joinCore (st : ServerState) (sockId room_id user_id username : String)
    (now : Int) (iso : String) : ServerState × List OutMsg :=
  let conn : ConnState := { currentRoomId := some room_id, currentUserId := some user_id }
  let st := { st with channels := channelJoin st.channels room_id sockId }
  let room := upsertMember ((st.rooms.get room_id).getD (freshRoom now)) sockId user_id username iso
  let st := { st with rooms := st.rooms.set room_id room }
  let st := setConn st sockId conn
  (st,
   [⟨OutTarget.toRoom room_id,
     Payload.membersUpdate room_id (serializeMembers room room_id)⟩,
    ⟨OutTarget.toSocket sockId,
     Payload.roomState room_id room.currentSong (getCurrentPosition room now) room.status
       now (serializeMembers room room_id)⟩])

/-- `join_room` handler (lines 99–150). The guard `!room_id || !user_id`
drops messages with empty ids. -/
def handleJoin (st : ServerState) (sockId : String) (room_id user_id username : String)
    (now : Int) (iso : String) : ServerState × List OutMsg :=
  if room_id = "" ∨ user_id = "" then (st, [])
  else
    let lr := joinLeaveRes st sockId room_id
    let jc := joinCore lr.1 sockId room_id user_id username now iso
    (jc.1, lr.2.2 ++ jc.2)

/-- `request_state` handler (lines 153–165): read-only; unknown room is a
silent no-op. -/
def handleRequestState (st : ServerState) (sockId room_id : String) (now : Int) :
    ServerState × List OutMsg :=
  match st.rooms.get room_id with
  | none => (st, [])
  | some room =>
    (st, [⟨OutTarget.toSocket sockId,
           Payload.roomState room_id room.currentSong (getCurrentPosition room now) room.status
             now (serializeMembers room room_id)⟩])

/-- `sync_position` handler (lines 168–182): stores the client-supplied
position and status verbatim (the status string is written through an
unchecked cast), stamps `lastSync` with the receipt time, and relays the
event minus the sender with `server_time` rewritten to receipt time. -/
def handleSyncPosition (st : ServerState) (sockId room_id : String) (position : Rat)
    (status : String) (server_time : Int) (now : Int) : ServerState × List OutMsg :=
  let st :=
    match st.rooms.get room_id with
    | some room =>
      let room := { room with position := position, status := status, lastSync := now }
      { st with rooms := st.rooms.set room_id room }
    | none => st
  (st, [⟨OutTarget.toRoomExcept room_id sockId,
         Payload.syncPosition room_id position status now⟩])

/-- `play` handler (lines 185–199). -/
def handlePlay (st : ServerState) (sockId room_id : String) (position : Rat) (now : Int) :
    ServerState × List OutMsg :=
  let st :=
    match st.rooms.get room_id with
    | some room =>
      let room := { room with position := position, status := "playing", lastSync := now }
      { st with rooms := st.rooms.set room_id room }
    | none => st
  (st, [⟨OutTarget.toRoomExcept room_id sockId,
         Payload.syncPosition room_id position "playing" now⟩])

/-- `pause` handler (lines 202–216). -/
def handlePause (st : ServerState) (sockId room_id : String) (position : Rat) (now : Int) :
    ServerState × List OutMsg :=
  let st :=
    match st.rooms.get room_id with
    | some room =>
      let room := { room with position := position, status := "paused", lastSync := now }
      { st with rooms := st.rooms.set room_id room }
    | none => st
  (st, [⟨OutTarget.toRoomExcept room_id sockId,
         Payload.syncPosition room_id position "paused" now⟩])

/-- `song_change` handler (lines 219–229). -/
def handleSongChange (st : ServerState) (sockId room_id : String) (song : Option Song)
    (now : Int) : ServerState × List OutMsg :=
  let st :=
    match st.rooms.get room_id with
    | some room =>
      let newStatus := if song.isSome then "playing" else "idle"
      let room :=
        { room with currentSong := song, position := 0, status := newStatus, lastSync := now }
      { st with rooms := st.rooms.set room_id room }
    | none => st
  (st, [⟨OutTarget.toRoomExcept room_id sockId, Payload.songChange room_id song⟩])

/-- `next_song` handler (lines 232–239). -/
def handleNextSong (st : ServerState) (sockId room_id : String) (now : Int) :
    ServerState × List OutMsg :=
  let st :=
    match st.rooms.get room_id with
    | some room =>
      let room := { room with position := 0, lastSync := now }
      { st with rooms := st.rooms.set room_id room }
    | none => st
  (st, [⟨OutTarget.toRoomExcept room_id sockId, Payload.nextSong room_id⟩])

/-- `vote` handler (lines 242–244): pure relay, gated on a truthy
`room_id`. -/
def handleVote (st : ServerState) (sockId : String) (data : VoteData) :
    ServerState × List OutMsg :=
  if data.room_id ≠ "" then
    (st, [⟨OutTarget.toRoomExcept data.room_id sockId, Payload.voteMsg data⟩])
  else (st, [])

/-- `leave_room` handler (lines 247–249). -/
def handleLeaveRoom (st : ServerState) (sockId room_id : String) : ServerState × List OutMsg :=
  let conn := getConn st sockId
  let r := doLeave st sockId conn room_id
  (setConn r.1 sockId r.2.1, r.2.2)

/-- `disconnect` handler (lines 252–255); the connection's closure state
dies with the socket. -/
def handleDisconnect (st : ServerState) (sockId : String) : ServerState × List OutMsg :=
  let conn := getConn st sockId
  let r :=
    match conn.currentRoomId with
    | some roomId => doLeave st sockId conn roomId
    | none => (st, conn, [])
  ({ r.1 with conns := r.1.conns.delete sockId }, r.2.2)

/-! ## The event step relation -/

/-- One inbound event (well-formed payload, per the handlers' TS
signatures). -/
inductive Event where
  | joinRoom (sockId room_id user_id username : String)
  | requestState (sockId room_id : String)
  | syncPosition (sockId room_id : String) (position : Rat) (status : String) (server_time : Int)
  | play (sockId room_id : String) (position : Rat)
  | pause (sockId room_id : String) (position : Rat)
  | songChange (sockId room_id : String) (song : Option Song)
  | nextSong (sockId room_id : String)
  | voteEvent (sockId : String) (data : VoteData)
  | leaveRoom (sockId room_id : String)
  | disconnect (sockId : String)
deriving DecidableEq

/-- Process one inbound event received at instant `now` (ms), with `iso`
the ISO rendering of that instant. -/
def step (st : ServerState) (e : Event) (now : Int) (iso : String) :
    ServerState × List OutMsg :=
  match e with
  | .joinRoom s r u n => handleJoin st s r u n now iso
  | .requestState s r => handleRequestState st s r now
  | .syncPosition s r p σ t => handleSyncPosition st s r p σ t now
  | .play s r p => handlePlay st s r p now
  | .pause s r p => handlePause st s r p now
  | .songChange s r song => handleSongChange st s r song now
  | .nextSong s r => handleNextSong st s r now
  | .voteEvent s d => handleVote st s d
  | .leaveRoom s r => handleLeaveRoom st s r
  | .disconnect s => handleDisconnect st s

/-- A timed inbound event. -/
structure TimedEvent where
  ev : Event
  now : Int
  iso : String

/-- Run a trace of events from a given state. -/
def runTraceFrom (st : ServerState) : List TimedEvent → ServerState
  | [] => st
  | te :: rest => runTraceFrom (step st te.ev te.now te.iso).1 rest

/-- Run a trace of events from server startup. -/
def runTrace (tes : List TimedEvent) : ServerState := runTraceFrom initState tes

/-- The reachable server states: startup state closed under event
processing. -/
inductive Reachable : ServerState → Prop
  | init : Reachable initState
  | next {st : ServerState} (e : Event) (now : Int) (iso : String) :
      Reachable st → Reachable (step st e now iso).1

theorem reachable_runTraceFrom {st : ServerState} (h : Reachable st)
    (tes : List TimedEvent) : Reachable (runTraceFrom st tes) := by
  induction tes generalizing st with
  | nil => exact h
  | cons te rest ih => exact ih (Reachable.next te.ev te.now te.iso h)

theorem reachable_runTrace (tes : List TimedEvent) : Reachable (runTrace tes) :=
  reachable_runTraceFrom Reachable.init tes

/-! ## Raw (untyped) payload layer

socket.io delivers whatever JSON the client sent; the TS parameter
annotations are erased at runtime, so a required field can arrive as
`undefined`. The raw layer models the handlers on such payloads. -/

/-- A JS runtime value expected to be a number: a number or `undefined`. -/
inductive JsNum where
  | num (q : Rat)
  | undef
deriving DecidableEq

/-- `RoomState` as it can exist at runtime after an unvalidated write:
the `position` field holds whatever JS value the handler stored. -/
structure RawRoom where
  members : JsMap String Member
  socketToUser : JsMap String String
  hostUserId : Option String
  currentSong : Option Song
  position : JsNum
  status : String
  lastSync : Int
deriving DecidableEq

/-- The relay emitted by the raw `play` handler (`socket.to(room_id)`,
with the raw field values passed through). -/
structure RawPlayEmit where
  room_id : Option String
  sender : String
  position : JsNum
  status : String
  server_time : Int
deriving DecidableEq

/-- The `play` handler (lines 185–199) on a raw payload whose fields may be
`undefined`. The store mutation and the relay emit happen first; the
final `console.log` template evaluates `room_id.slice(0,8)` and
`position.toFixed(2)`, each of which throws a `TypeError` when the value
is `undefined` — `crashed` records that the handler threw (socket.io does
not catch handler exceptions, so an uncaught throw brings the process
down). Mutations performed before the throw persist. -/
def handlePlayRaw (rooms : JsMap String RawRoom) (sockId : String)
    (room_id : Option String) (position : JsNum) (now : Int) :
    JsMap String RawRoom × List RawPlayEmit × Bool :=
  let rooms :=
    match room_id with
    | some r =>
      match rooms.get r with
      | some room =>
        let room := { room with position := position, status := "playing", lastSync := now }
        rooms.set r room
      | none => rooms
    | none => rooms
  let out := [⟨room_id, sockId, position, "playing", now⟩]
  let crashed := room_id.isNone || position == JsNum.undef
  (rooms, out, crashed)

/-- The `join_room` handler (lines 99–150) on a raw payload whose string
fields may be `undefined`: the guard `!room_id || !user_id` (line 102)
silently drops the message when either is `undefined` or empty; otherwise
both are genuine nonempty strings and the typed handler runs
(`username || 'Anonymous'` treats `undefined` and `""` alike, so an
`undefined` username is passed through as `""`). -/
def handleJoinRaw (st : ServerState) (sockId : String)
    (room_id user_id username : Option String) (now : Int) (iso : String) :
    ServerState × List OutMsg :=
  if jsFalsyOptStr room_id || jsFalsyOptStr user_id then (st, [])
  else handleJoin st sockId (room_id.getD "") (user_id.getD "") (username.getD "") now iso

/-- The `request_state` handler (lines 153–165) on a raw payload: a
missing `room_id` makes `rooms.get(undefined)` return `undefined`, hitting
the same silent-drop branch as an unknown room id. -/
def handleRequestStateRaw (st : ServerState) (sockId : String)
    (room_id : Option String) (now : Int) : ServerState × List OutMsg :=
  match room_id with
  | some r => handleRequestState st sockId r now
  | none => (st, [])

/-! ## Association-list (`JsMap`) lemmas -/

namespace JsMap

variable {α β : Type} [DecidableEq α]

theorem get_set (m : JsMap α β) (k k' : α) (v : β) :
    (m.set k v).get k' = if k = k' then some v else m.get k' := by
  induction m with
  | nil => simp [set, get]
  | cons p rest ih =>
    obtain ⟨k₀, v₀⟩ := p
    by_cases h0 : k₀ = k
    · subst h0
      by_cases h1 : k₀ = k' <;> simp [set, get, h1]
    · by_cases h1 : k₀ = k'
      · have hkk : ¬ k = k' := fun h => h0 (h1.trans h.symm)
        have hkk' : ¬ k' = k := fun h => hkk h.symm
        simp [set, get, h0, h1, hkk, hkk']
      · simp [set, get, h0, h1, ih]

theorem get_set_self (m : JsMap α β) (k : α) (v : β) : (m.set k v).get k = some v := by
  simp [get_set]

theorem get_set_ne (m : JsMap α β) {k k' : α} (v : β) (h : k ≠ k') :
    (m.set k v).get k' = m.get k' := by
  simp [get_set, h]

theorem get_delete_ne (m : JsMap α β) {k k' : α} (h : k' ≠ k) :
    (m.delete k).get k' = m.get k' := by
  induction m with
  | nil => simp [delete]
  | cons p rest ih =>
    obtain ⟨k₀, v₀⟩ := p
    by_cases h0 : k₀ = k
    · subst h0
      have : ¬ k₀ = k' := fun hh => h hh.symm
      simp [delete, get, this]
    · by_cases h1 : k₀ = k' <;> simp [delete, get, h0, h1, ih, h]

theorem get_eq_none_of_not_mem_keys (m : JsMap α β) {k : α} (h : k ∉ m.keys) :
    m.get k = none := by
  induction m with
  | nil => rfl
  | cons p rest ih =>
    obtain ⟨k₀, v₀⟩ := p
    rw [keys, List.map_cons, List.mem_cons] at h
    push_neg at h
    have h1 : ¬ k₀ = k := fun hh => h.1 hh.symm
    rw [get]
    simp only [h1, if_false]
    exact ih h.2

theorem mem_keys_of_get {m : JsMap α β} {k : α} {v : β} (h : m.get k = some v) :
    k ∈ m.keys := by
  by_contra hc
  rw [get_eq_none_of_not_mem_keys m hc] at h
  exact Option.noConfusion h

theorem get_isSome_of_mem_keys (m : JsMap α β) {k : α} (h : k ∈ m.keys) :
    (m.get k).isSome := by
  induction m with
  | nil => simp [keys] at h
  | cons p rest ih =>
    obtain ⟨k₀, v₀⟩ := p
    rw [keys, List.map_cons, List.mem_cons] at h
    by_cases h0 : k₀ = k
    · simp [get, h0]
    · rcases h with h | h
      · exact absurd h.symm h0
      · simp [get, h0, ih h]

theorem get_delete_self (m : JsMap α β) (k : α) (h : m.keys.Nodup) :
    (m.delete k).get k = none := by
  induction m with
  | nil => rfl
  | cons p rest ih =>
    obtain ⟨k₀, v₀⟩ := p
    rw [keys, List.map_cons, List.nodup_cons] at h
    by_cases h0 : k₀ = k
    · subst h0
      rw [delete]
      simp only [if_pos rfl]
      exact get_eq_none_of_not_mem_keys rest h.1
    · rw [delete]
      simp only [h0, if_false]
      rw [get]
      simp only [h0, if_false]
      exact ih h.2

theorem keys_set (m : JsMap α β) (k : α) (v : β) :
    (m.set k v).keys = if (m.get k).isSome then m.keys else m.keys ++ [k] := by
  induction m with
  | nil => simp [set, get, keys]
  | cons p rest ih =>
    obtain ⟨k₀, v₀⟩ := p
    by_cases h0 : k₀ = k
    · subst h0
      simp [set, get, keys]
    · have ih' := ih
      simp only [keys] at ih'
      simp only [set, h0, if_false, keys, List.map_cons, get]
      rw [ih']
      by_cases h1 : (get rest k).isSome <;> simp [h1]

theorem delete_sublist (m : JsMap α β) (k : α) : (m.delete k).Sublist m := by
  induction m with
  | nil => simp [delete]
  | cons p rest ih =>
    obtain ⟨k₀, v₀⟩ := p
    by_cases h0 : k₀ = k
    · rw [delete]
      simp only [h0, if_pos rfl]
      exact List.sublist_cons_self _ _
    · rw [delete]
      simp only [h0, if_false]
      exact ih.cons₂ _

theorem mem_of_mem_delete {m : JsMap α β} {k : α} {p : α × β} (h : p ∈ m.delete k) :
    p ∈ m := (delete_sublist m k).mem h

theorem keys_delete_sublist (m : JsMap α β) (k : α) :
    (m.delete k).keys.Sublist m.keys := (delete_sublist m k).map Prod.fst

theorem nodup_keys_delete (m : JsMap α β) (k : α) (h : m.keys.Nodup) :
    (m.delete k).keys.Nodup := (keys_delete_sublist m k).nodup h

theorem nodup_keys_set (m : JsMap α β) (k : α) (v : β) (h : m.keys.Nodup) :
    (m.set k v).keys.Nodup := by
  rw [keys_set]
  by_cases h1 : (m.get k).isSome
  · simpa [h1] using h
  · have hk : k ∉ m.keys := fun hm => h1 (get_isSome_of_mem_keys m hm)
    simp [h1, List.nodup_append, h, hk]

theorem mem_of_mem_set {m : JsMap α β} {k : α} {v : β} {p : α × β}
    (hp : p ∈ m.set k v) : p ∈ m ∨ p = (k, v) := by
  induction m with
  | nil =>
    rw [set, List.mem_singleton] at hp
    exact Or.inr hp
  | cons q rest ih =>
    obtain ⟨k₀, v₀⟩ := q
    by_cases h0 : k₀ = k
    · subst h0
      rw [set, if_pos rfl, List.mem_cons] at hp
      rcases hp with hp | hp
      · exact Or.inr (by simpa using hp)
      · exact Or.inl (List.mem_cons_of_mem _ hp)
    · rw [set] at hp
      simp only [h0, if_false] at hp
      rw [List.mem_cons] at hp
      rcases hp with hp | hp
      · exact Or.inl (hp ▸ List.mem_cons_self _ _)
      · rcases ih hp with h | h
        · exact Or.inl (List.mem_cons_of_mem _ h)
        · exact Or.inr h

theorem mem_keys_delete_of_ne {m : JsMap α β} {k k' : α} (hne : k' ≠ k)
    (h : k' ∈ m.keys) : k' ∈ (m.delete k).keys := by
  induction m with
  | nil => simp [keys] at h
  | cons p rest ih =>
    obtain ⟨k₀, v₀⟩ := p
    rw [keys, List.map_cons, List.mem_cons] at h
    by_cases h0 : k₀ = k
    · subst h0
      rw [delete, if_pos rfl]
      rcases h with h | h
      · exact absurd h hne
      · exact h
    · rw [delete]
      simp only [h0, if_false]
      rw [keys, List.map_cons, List.mem_cons]
      rcases h with h | h
      · exact Or.inl h
      · exact Or.inr (ih h)

theorem mem_keys_set_self (m : JsMap α β) (k : α) (v : β) : k ∈ (m.set k v).keys :=
  mem_keys_of_get (get_set_self m k v)

theorem mem_keys_set_of_mem {m : JsMap α β} {k' : α} (k : α) (v : β)
    (h : k' ∈ m.keys) : k' ∈ (m.set k v).keys := by
  rw [keys_set]
  by_cases h1 : (m.get k).isSome <;> simp [h1, h]

theorem values_head_mem {m : JsMap α β} {b : β} (h : m.values.head? = some b) :
    ∃ k, (k, b) ∈ m := by
  cases m with
  | nil => exact absurd h (by simp [values])
  | cons p rest =>
    obtain ⟨k₀, v₀⟩ := p
    rw [values, List.map_cons, List.head?_cons, Option.some_inj] at h
    exact ⟨k₀, h ▸ List.mem_cons_self _ _⟩

theorem count_keys_set_of_isSome {m : JsMap α β} {k : α} (v : β)
    (h : (m.get k).isSome) : (m.set k v).keys.count k = m.keys.count k := by
  rw [keys_set]
  simp [h]

theorem count_keys_set_of_none {m : JsMap α β} {k : α} (v : β)
    (h : m.get k = none) : (m.set k v).keys.count k = m.keys.count k + 1 := by
  rw [keys_set]
  simp [h, List.count_append]

end JsMap

/-! ## Characterization lemmas for the handler building blocks -/

theorem set_ne_nil {α β : Type} [DecidableEq α] (m : JsMap α β) (k : α) (v : β) :
    m.set k v ≠ [] := by
  cases m with
  | nil => simp [JsMap.set]
  | cons p rest =>
    obtain ⟨k₀, v₀⟩ := p
    by_cases h : k₀ = k <;> simp [JsMap.set, h]

theorem removeOnLeave_hostUserId (room : RoomState) (s : String) (uid : Option String) :
    (removeOnLeave room s uid).hostUserId = room.hostUserId := by
  cases uid with
  | none => rfl
  | some u =>
    unfold removeOnLeave
    cases hm : room.members.get u with
    | none => simp [hm]
    | some mem => by_cases hs : mem.socketId = s <;> simp [hm, hs]

theorem removeOnLeave_members (room : RoomState) (s : String) (uid : Option String) :
    (removeOnLeave room s uid).members = room.members ∨
      ∃ u, uid = some u ∧ (removeOnLeave room s uid).members = room.members.delete u := by
  cases uid with
  | none => exact Or.inl rfl
  | some u =>
    unfold removeOnLeave
    cases hm : room.members.get u with
    | none => exact Or.inl (by simp [hm])
    | some mem =>
      by_cases hs : mem.socketId = s
      · exact Or.inr ⟨u, rfl, by simp [hm, hs]⟩
      · exact Or.inl (by simp [hm, hs])

theorem removeOnLeave_eq_of_current {room : RoomState} {u s : String} {mem : Member}
    (hm : room.members.get u = some mem) (hs : mem.socketId = s) :
    removeOnLeave room s (some u) =
      { room with members := room.members.delete u,
                  socketToUser := room.socketToUser.delete s } := by
  unfold removeOnLeave
  simp [hm, hs]

theorem removeOnLeave_eq_of_stale {room : RoomState} {u s : String} {mem : Member}
    (hm : room.members.get u = some mem) (hs : mem.socketId ≠ s) :
    removeOnLeave room s (some u) =
      { room with socketToUser := room.socketToUser.delete s } := by
  unfold removeOnLeave
  simp [hm, hs]

theorem reassignHost_cases (room : RoomState) (rid : String) (uid : Option String) :
    (¬ room.hostUserId = uid ∧ reassignHost room rid uid = (room, [])) ∨
    (room.hostUserId = uid ∧ room.members.values.head? = none ∧
      reassignHost room rid uid = ({ room with hostUserId := none }, [])) ∨
    (room.hostUserId = uid ∧ ∃ nh, room.members.values.head? = some nh ∧
      reassignHost room rid uid =
        ({ room with hostUserId := some nh.userId },
         [⟨OutTarget.toSocket nh.socketId, Payload.promotedToHost rid⟩])) := by
  unfold reassignHost
  by_cases h : room.hostUserId = uid
  · cases hh : room.members.values.head? with
    | none => exact Or.inr (Or.inl ⟨h, rfl, by simp [h]⟩)
    | some nh => exact Or.inr (Or.inr ⟨h, nh, rfl, by simp [h]⟩)
  · exact Or.inl ⟨h, by simp [h]⟩

theorem reassignHost_members (room : RoomState) (rid : String) (uid : Option String) :
    (reassignHost room rid uid).1.members = room.members := by
  rcases reassignHost_cases room rid uid with ⟨_, he⟩ | ⟨_, _, he⟩ | ⟨_, nh, _, he⟩ <;>
    simp [he]

theorem upsertMember_members (room : RoomState) (s u n iso : String) :
    (upsertMember room s u n iso).members =
      room.members.set u
        ⟨u, jsOrStr n "Anonymous", s, upsertJoinedAt room u iso⟩ := by
  unfold upsertMember
  by_cases h : jsFalsyOptStr room.hostUserId <;> simp [h]

theorem upsertMember_host (room : RoomState) (s u n iso : String) :
    (upsertMember room s u n iso).hostUserId = some u ∨
    (jsFalsyOptStr room.hostUserId = false ∧
      (upsertMember room s u n iso).hostUserId = room.hostUserId) := by
  unfold upsertMember
  by_cases h : jsFalsyOptStr room.hostUserId <;> simp [h]

/-! ## Structural invariants of reachable states -/

/-- Invariants maintained by every event handler: the store's keys are
unique, every stored room has at least one member, member maps have
unique keys, every member entry is keyed by its own `userId`, and a
non-null host always names a present member. -/
structure StoreInv (st : ServerState) : Prop where
  roomsNodup : st.rooms.keys.Nodup
  membersNonempty : ∀ r room, st.rooms.get r = some room → room.members ≠ []
  membersNodup : ∀ r room, st.rooms.get r = some room → room.members.keys.Nodup
  memberKeyed : ∀ r room, st.rooms.get r = some room → ∀ p ∈ room.members, p.1 = p.2.userId
  hostMem : ∀ r room h, st.rooms.get r = some room →
    room.hostUserId = some h → h ∈ room.members.keys

theorem storeInv_of_rooms_eq {st st' : ServerState} (inv : StoreInv st)
    (h : st'.rooms = st.rooms) : StoreInv st' := by
  refine ⟨?_, ?_, ?_, ?_, ?_⟩
  · rw [h]; exact inv.roomsNodup
  · intro r room hr; rw [h] at hr; exact inv.membersNonempty r room hr
  · intro r room hr; rw [h] at hr; exact inv.membersNodup r room hr
  · intro r room hr; rw [h] at hr; exact inv.memberKeyed r room hr
  · intro r room hh hr hhost; rw [h] at hr; exact inv.hostMem r room hh hr hhost

theorem storeInv_initState : StoreInv initState := by
  refine ⟨?_, ?_, ?_, ?_, ?_⟩ <;> simp [initState, JsMap.keys, JsMap.get]

theorem get_set_cases {α β : Type} [DecidableEq α] {m : JsMap α β} {k r : α} {v w : β}
    (h : (m.set k v).get r = some w) : (k = r ∧ w = v) ∨ (k ≠ r ∧ m.get r = some w) := by
  rw [JsMap.get_set] at h
  by_cases hk : k = r
  · rw [if_pos hk] at h
    exact Or.inl ⟨hk, (Option.some_inj.mp h).symm⟩
  · rw [if_neg hk] at h
    exact Or.inr ⟨hk, h⟩

theorem get_delete_eq_some {α β : Type} [DecidableEq α] {m : JsMap α β} {k r : α} {w : β}
    (hnd : m.keys.Nodup) (h : (m.delete k).get r = some w) : m.get r = some w := by
  by_cases hk : r = k
  · subst hk
    rw [JsMap.get_delete_self m r hnd] at h
    exact absurd h (by simp)
  · rwa [JsMap.get_delete_ne m hk] at h

theorem storeInv_set_room {st : ServerState} (inv : StoreInv st) {roomId : String}
    {room : RoomState} (h1 : room.members ≠ []) (h2 : room.members.keys.Nodup)
    (h3 : ∀ p ∈ room.members, p.1 = p.2.userId)
    (h4 : ∀ h, room.hostUserId = some h → h ∈ room.members.keys)
    (ch : Channels) (cs : JsMap String ConnState) :
    StoreInv ⟨st.rooms.set roomId room, ch, cs⟩ := by
  refine ⟨JsMap.nodup_keys_set _ _ _ inv.roomsNodup, ?_, ?_, ?_, ?_⟩
  · intro r room' hr
    rcases get_set_cases hr with ⟨_, rfl⟩ | ⟨_, hget⟩
    · exact h1
    · exact inv.membersNonempty r room' hget
  · intro r room' hr
    rcases get_set_cases hr with ⟨_, rfl⟩ | ⟨_, hget⟩
    · exact h2
    · exact inv.membersNodup r room' hget
  · intro r room' hr
    rcases get_set_cases hr with ⟨_, rfl⟩ | ⟨_, hget⟩
    · exact h3
    · exact inv.memberKeyed r room' hget
  · intro r room' hh hr hhost
    rcases get_set_cases hr with ⟨_, rfl⟩ | ⟨_, hget⟩
    · exact h4 hh hhost
    · exact inv.hostMem r room' hh hget hhost

theorem storeInv_set_room_preserving {st : ServerState} (inv : StoreInv st) {roomId : String}
    {room room' : RoomState} (hget : st.rooms.get roomId = some room)
    (hm : room'.members = room.members) (hh : room'.hostUserId = room.hostUserId)
    (ch : Channels) (cs : JsMap String ConnState) :
    StoreInv ⟨st.rooms.set roomId room', ch, cs⟩ := by
  refine storeInv_set_room inv ?_ ?_ ?_ ?_ ch cs
  · rw [hm]; exact inv.membersNonempty _ _ hget
  · rw [hm]; exact inv.membersNodup _ _ hget
  · rw [hm]; exact inv.memberKeyed _ _ hget
  · intro h hhost
    rw [hh] at hhost
    rw [hm]
    exact inv.hostMem _ _ h hget hhost

theorem storeInv_delete_room {st : ServerState} (inv : StoreInv st) (roomId : String)
    (ch : Channels) (cs : JsMap String ConnState) :
    StoreInv ⟨st.rooms.delete roomId, ch, cs⟩ := by
  refine ⟨JsMap.nodup_keys_delete _ _ inv.roomsNodup, ?_, ?_, ?_, ?_⟩
  · intro r room hr
    exact inv.membersNonempty r room (get_delete_eq_some inv.roomsNodup hr)
  · intro r room hr
    exact inv.membersNodup r room (get_delete_eq_some inv.roomsNodup hr)
  · intro r room hr
    exact inv.memberKeyed r room (get_delete_eq_some inv.roomsNodup hr)
  · intro r room h hr hhost
    exact inv.hostMem r room h (get_delete_eq_some inv.roomsNodup hr) hhost

theorem storeInv_doLeave {st : ServerState} (inv : StoreInv st) (sockId : String)
    (conn : ConnState) (roomId : String) : StoreInv (doLeave st sockId conn roomId).1 := by
  cases hget : st.rooms.get roomId with
  | none =>
    simp only [doLeave, hget]
    exact inv
  | some room =>
    simp only [doLeave, hget]
    by_cases hsz :
        (removeOnLeave room sockId (resolveLeaveUser room sockId conn)).members.size = 0
    · rw [if_pos hsz]
      exact storeInv_delete_room inv roomId _ _
    · rw [if_neg hsz]
      set uid := resolveLeaveUser room sockId conn with huid
      set room2 := removeOnLeave room sockId uid with hroom2
      have hmemcases := removeOnLeave_members room sockId uid
      rw [← hroom2] at hmemcases
      have h2nodup : room2.members.keys.Nodup := by
        rcases hmemcases with hm | ⟨w, _, hm⟩
        · rw [hm]; exact inv.membersNodup _ _ hget
        · rw [hm]; exact JsMap.nodup_keys_delete _ _ (inv.membersNodup _ _ hget)
      have h2keyed : ∀ p ∈ room2.members, p.1 = p.2.userId := by
        intro p hp
        rcases hmemcases with hm | ⟨w, _, hm⟩
        · rw [hm] at hp; exact inv.memberKeyed _ _ hget p hp
        · rw [hm] at hp; exact inv.memberKeyed _ _ hget p (JsMap.mem_of_mem_delete hp)
      have h2host : room2.hostUserId = room.hostUserId := removeOnLeave_hostUserId room sockId uid
      refine storeInv_set_room inv ?_ ?_ ?_ ?_ _ _
      · rw [reassignHost_members]
        intro hnil
        exact hsz (by simp [JsMap.size, hnil])
      · rw [reassignHost_members]; exact h2nodup
      · intro p hp
        rw [reassignHost_members] at hp
        exact h2keyed p hp
      · intro h hhost
        rcases reassignHost_cases room2 roomId uid with ⟨hne, heq⟩ | ⟨_, _, heq⟩ |
          ⟨_, nh, hhead, heq⟩
        · rw [heq] at hhost
          simp only at hhost
          rw [heq]
          simp only
          rw [h2host] at hhost
          have hmem : h ∈ room.members.keys := inv.hostMem _ _ h hget hhost
          rcases hmemcases with hm | ⟨w, hw, hm⟩
          · rw [hm]; exact hmem
          · rw [hm]
            refine JsMap.mem_keys_delete_of_ne ?_ hmem
            intro hcontra
            apply hne
            rw [h2host, hhost, hw, hcontra]
        · rw [heq] at hhost
          simp only at hhost
          exact absurd hhost (by simp)
        · rw [heq] at hhost
          simp only at hhost
          rw [heq]
          simp only
          obtain ⟨k, hk⟩ := JsMap.values_head_mem hhead
          have hkeq : k = nh.userId := h2keyed (k, nh) hk
          have : k ∈ room2.members.keys := List.mem_map_of_mem Prod.fst hk
          rw [hkeq] at this
          rw [Option.some_inj] at hhost
          rw [hhost] at this
          exact this

theorem storeInv_joinLeaveRes {st : ServerState} (inv : StoreInv st) (sockId r : String) :
    StoreInv (joinLeaveRes st sockId r).1 := by
  unfold joinLeaveRes
  cases hcr : (getConn st sockId).currentRoomId with
  | none => exact inv
  | some prev =>
    show StoreInv
      (if prev ≠ r then doLeave st sockId (getConn st sockId) prev
       else (st, getConn st sockId, [])).1
    by_cases hp : prev ≠ r
    · rw [if_pos hp]
      exact storeInv_doLeave inv sockId _ prev
    · rw [if_neg hp]
      exact inv

theorem storeInv_joinCore {st : ServerState} (inv : StoreInv st) (sockId r u n : String)
    (now : Int) (iso : String) : StoreInv (joinCore st sockId r u n now iso).1 := by
  simp only [joinCore, setConn]
  set base := (st.rooms.get r).getD (freshRoom now) with hbase
  have baseNodup : base.members.keys.Nodup := by
    rw [hbase]
    cases hb : st.rooms.get r with
    | none => simp [freshRoom, JsMap.keys]
    | some roomB => exact inv.membersNodup _ _ hb
  have baseKeyed : ∀ p ∈ base.members, p.1 = p.2.userId := by
    rw [hbase]
    cases hb : st.rooms.get r with
    | none => simp [freshRoom]
    | some roomB => exact inv.memberKeyed _ _ hb
  have baseHost : ∀ h, base.hostUserId = some h → h ∈ base.members.keys := by
    rw [hbase]
    cases hb : st.rooms.get r with
    | none => simp [freshRoom]
    | some roomB => exact fun h hh => inv.hostMem _ _ h hb hh
  refine storeInv_set_room inv ?_ ?_ ?_ ?_ _ _
  · rw [upsertMember_members]
    exact set_ne_nil _ _ _
  · rw [upsertMember_members]
    exact JsMap.nodup_keys_set _ _ _ baseNodup
  · rw [upsertMember_members]
    intro p hp
    rcases JsMap.mem_of_mem_set hp with hpm | hpe
    · exact baseKeyed p hpm
    · rw [hpe]
  · intro h hhost
    rw [upsertMember_members]
    rcases upsertMember_host base sockId u n iso with hh | ⟨hfal, hh⟩
    · rw [hh, Option.some_inj] at hhost
      rw [← hhost]
      exact JsMap.mem_keys_set_self _ _ _
    · rw [hh] at hhost
      exact JsMap.mem_keys_set_of_mem _ _ (baseHost h hhost)

theorem storeInv_handleJoin {st : ServerState} (inv : StoreInv st) (sockId r u n : String)
    (now : Int) (iso : String) : StoreInv (handleJoin st sockId r u n now iso).1 := by
  by_cases hg : r = "" ∨ u = ""
  · simp only [handleJoin, hg, if_true]
    exact inv
  · simp only [handleJoin, hg, if_false]
    exact storeInv_joinCore (storeInv_joinLeaveRes inv sockId r) sockId r u n now iso

theorem storeInv_handleRequestState {st : ServerState} (inv : StoreInv st)
    (sockId r : String) (now : Int) : StoreInv (handleRequestState st sockId r now).1 := by
  cases hget : st.rooms.get r with
  | none => simp only [handleRequestState, hget]; exact inv
  | some room => simp only [handleRequestState, hget]; exact inv

theorem storeInv_handleSyncPosition {st : ServerState} (inv : StoreInv st)
    (sockId r : String) (p : Rat) (σ : String) (t now : Int) :
    StoreInv (handleSyncPosition st sockId r p σ t now).1 := by
  cases hget : st.rooms.get r with
  | none => simp only [handleSyncPosition, hget]; exact inv
  | some room =>
    simp only [handleSyncPosition, hget]
    refine storeInv_set_room_preserving inv hget ?_ ?_ _ _ <;> rfl

theorem storeInv_handlePlay {st : ServerState} (inv : StoreInv st)
    (sockId r : String) (p : Rat) (now : Int) :
    StoreInv (handlePlay st sockId r p now).1 := by
  cases hget : st.rooms.get r with
  | none => simp only [handlePlay, hget]; exact inv
  | some room =>
    simp only [handlePlay, hget]
    refine storeInv_set_room_preserving inv hget ?_ ?_ _ _ <;> rfl

theorem storeInv_handlePause {st : ServerState} (inv : StoreInv st)
    (sockId r : String) (p : Rat) (now : Int) :
    StoreInv (handlePause st sockId r p now).1 := by
  cases hget : st.rooms.get r with
  | none => simp only [handlePause, hget]; exact inv
  | some room =>
    simp only [handlePause, hget]
    refine storeInv_set_room_preserving inv hget ?_ ?_ _ _ <;> rfl

theorem storeInv_handleSongChange {st : ServerState} (inv : StoreInv st)
    (sockId r : String) (song : Option Song) (now : Int) :
    StoreInv (handleSongChange st sockId r song now).1 := by
  cases hget : st.rooms.get r with
  | none => simp only [handleSongChange, hget]; exact inv
  | some room =>
    simp only [handleSongChange, hget]
    refine storeInv_set_room_preserving inv hget ?_ ?_ _ _ <;> rfl

theorem storeInv_handleNextSong {st : ServerState} (inv : StoreInv st)
    (sockId r : String) (now : Int) : StoreInv (handleNextSong st sockId r now).1 := by
  cases hget : st.rooms.get r with
  | none => simp only [handleNextSong, hget]; exact inv
  | some room =>
    simp only [handleNextSong, hget]
    refine storeInv_set_room_preserving inv hget ?_ ?_ _ _ <;> rfl

theorem storeInv_handleVote {st : ServerState} (inv : StoreInv st)
    (sockId : String) (data : VoteData) : StoreInv (handleVote st sockId data).1 := by
  unfold handleVote
  by_cases h : data.room_id ≠ ""
  · rw [if_pos h]; exact inv
  · rw [if_neg h]; exact inv

theorem storeInv_handleLeaveRoom {st : ServerState} (inv : StoreInv st)
    (sockId r : String) : StoreInv (handleLeaveRoom st sockId r).1 := by
  have h := storeInv_doLeave inv sockId (getConn st sockId) r
  exact storeInv_of_rooms_eq h rfl

theorem storeInv_handleDisconnect {st : ServerState} (inv : StoreInv st)
    (sockId : String) : StoreInv (handleDisconnect st sockId).1 := by
  cases hcr : (getConn st sockId).currentRoomId with
  | none =>
    simp only [handleDisconnect, hcr]
    exact storeInv_of_rooms_eq inv rfl
  | some roomId =>
    simp only [handleDisconnect, hcr]
    exact storeInv_of_rooms_eq (storeInv_doLeave inv sockId (getConn st sockId) roomId) rfl

theorem storeInv_step {st : ServerState} (inv : StoreInv st) (e : Event) (now : Int)
    (iso : String) : StoreInv (step st e now iso).1 := by
  cases e with
  | joinRoom s r u n => exact storeInv_handleJoin inv s r u n now iso
  | requestState s r => exact storeInv_handleRequestState inv s r now
  | syncPosition s r p σ t => exact storeInv_handleSyncPosition inv s r p σ t now
  | play s r p => exact storeInv_handlePlay inv s r p now
  | pause s r p => exact storeInv_handlePause inv s r p now
  | songChange s r song => exact storeInv_handleSongChange inv s r song now
  | nextSong s r => exact storeInv_handleNextSong inv s r now
  | voteEvent s d => exact storeInv_handleVote inv s d
  | leaveRoom s r => exact storeInv_handleLeaveRoom inv s r
  | disconnect s => exact storeInv_handleDisconnect inv s

/-- Every reachable server state satisfies the structural store
invariants. -/
theorem reachable_storeInv {st : ServerState} (h : Reachable st) : StoreInv st := by
  induction h with
  | init => exact storeInv_initState
  | next e now iso _ ih => exact storeInv_step ih e now iso

/-! ## Effect of a join on the joined room -/

theorem doLeave_rooms_get_ne (st : ServerState) (sockId : String) (conn : ConnState)
    {prev r : String} (hne : prev ≠ r) :
    (doLeave st sockId conn prev).1.rooms.get r = st.rooms.get r := by
  cases hget : st.rooms.get prev with
  | none => simp [doLeave, hget]
  | some room =>
    simp only [doLeave, hget]
    by_cases hsz :
        (removeOnLeave room sockId (resolveLeaveUser room sockId conn)).members.size = 0
    · rw [if_pos hsz]
      exact JsMap.get_delete_ne _ (fun h => hne h.symm)
    · rw [if_neg hsz]
      exact JsMap.get_set_ne _ _ hne

theorem joinLeaveRes_rooms_get (st : ServerState) (sockId r : String) :
    (joinLeaveRes st sockId r).1.rooms.get r = st.rooms.get r := by
  unfold joinLeaveRes
  cases hcr : (getConn st sockId).currentRoomId with
  | none => rfl
  | some prev =>
    show (if prev ≠ r then doLeave st sockId (getConn st sockId) prev
          else (st, getConn st sockId, [])).1.rooms.get r = st.rooms.get r
    by_cases hp : prev ≠ r
    · rw [if_pos hp]
      exact doLeave_rooms_get_ne st sockId _ hp
    · rw [if_neg hp]

theorem joinCore_rooms_get (st : ServerState) (sockId r u n : String) (now : Int)
    (iso : String) :
    (joinCore st sockId r u n now iso).1.rooms.get r =
      some (upsertMember ((st.rooms.get r).getD (freshRoom now)) sockId u n iso) := by
  simp only [joinCore, setConn]
  exact JsMap.get_set_self _ _ _

theorem handleJoin_rooms_get {st : ServerState} {sockId r u n : String} {now : Int}
    {iso : String} (hr : r ≠ "") (hu : u ≠ "") :
    (handleJoin st sockId r u n now iso).1.rooms.get r =
      some (upsertMember ((st.rooms.get r).getD (freshRoom now)) sockId u n iso) := by
  have hg : ¬(r = "" ∨ u = "") := by
    intro h
    rcases h with h | h
    · exact hr h
    · exact hu h
  simp only [handleJoin, hg, if_false]
  rw [joinCore_rooms_get, joinLeaveRes_rooms_get]

/-! ## C1 — the playback clock -/

/-- The room of the C1 counterexample: playing at stored position 10,
last synchronized at 2000 ms. -/
def c1Room : RoomState :=
  { members := [], socketToUser := [], hostUserId := none, currentSong := none,
    position := 10, status := "playing", lastSync := 2000 }

/-- C1, counterexample. The claim states the elapsed term of the playback
clock is clamped to be ≥ 0, so the result is never below the stored
`playbackPosition`. `getCurrentPosition` (lines 75–79) has no such clamp:
reading the clock at `now = 1000`, one second before `lastSync = 2000`,
yields 9, strictly below the stored position 10. -/
theorem getCurrentPosition_clamp_counterexample :
    getCurrentPosition c1Room 1000 < c1Room.position := by
  norm_num [getCurrentPosition, c1Room]

/-- C1, amended. `getCurrentPosition(room)` read at instant `now` returns
`playbackPosition` unchanged whenever `playbackStatus` is not `"playing"`
(in particular when it is `"paused"` or `"idle"`), and when the status is
`"playing"` returns `playbackPosition + (now − lastSyncTimestamp)` in
seconds with no lower clamp; the result is ≥ the stored position whenever
`now ≥ lastSyncTimestamp` (but can drop below it if the wall clock reads
earlier than `lastSync`). The function is pure: it only returns a value
and never mutates the room. -/
theorem getCurrentPosition_spec (room : RoomState) (now : Int) :
    (room.status ≠ "playing" → getCurrentPosition room now = room.position) ∧
    (room.status = "playing" →
      getCurrentPosition room now =
        room.position + ((now : Rat) - (room.lastSync : Rat)) / 1000) ∧
    (room.status = "playing" → room.lastSync ≤ now →
      room.position ≤ getCurrentPosition room now) := by
  refine ⟨?_, ?_, ?_⟩
  · intro h
    simp [getCurrentPosition, h]
  · intro h
    simp [getCurrentPosition, h]
  · intro h hle
    have hnn : (0 : Rat) ≤ ((now : Rat) - (room.lastSync : Rat)) / 1000 := by
      apply div_nonneg
      · rw [sub_nonneg]
        exact_mod_cast hle
      · norm_num
    simp only [getCurrentPosition, h, ne_eq, not_true_eq_false, if_false]
    linarith

/-- C1, witness: the amended clock specification evaluated on a concrete
playing room one second after its last sync, and on a paused room. -/
theorem getCurrentPosition_spec_witness :
    getCurrentPosition c1Room 3000 = 11 ∧ (10 : Rat) ≤ getCurrentPosition c1Room 3000 ∧
    getCurrentPosition { c1Room with status := "paused" } 3000 = 10 := by
  have hplay := getCurrentPosition_spec c1Room 3000
  have hpause := getCurrentPosition_spec { c1Room with status := "paused" } 3000
  refine ⟨?_, ?_, ?_⟩
  · rw [hplay.2.1 rfl]
    norm_num [c1Room]
  · exact hplay.2.2 rfl (by norm_num [c1Room])
  · exact hpause.1 (by simp [c1Room])

/-! ## C5 — the `play` event -/

/-- C5. When `play(roomId, position)` arrives for a room present in the
store, the room's `playbackPosition` is set to the event's position,
`playbackStatus` to `"playing"` and `lastSyncTimestamp` to the server's
receipt instant `now` (the inbound `play` payload carries no timestamp
field at all, so a client-supplied timestamp can never be stored), and the
only emission is one `sync_position` message with that position, status
`"playing"` and `server_time = now`, targeted at the room channel minus
the sender: it is delivered to every other socket subscribed to the
room's channel and never to the sender. The channel state is unchanged by
`play`, so delivery is the same before and after. -/
theorem play_spec {st : ServerState} {sockId r : String} {room : RoomState}
    (p : Rat) (now : Int) (hget : st.rooms.get r = some room) :
    ((handlePlay st sockId r p now).1.rooms.get r =
      some { room with position := p, status := "playing", lastSync := now }) ∧
    ((handlePlay st sockId r p now).1.channels = st.channels) ∧
    ((handlePlay st sockId r p now).2 =
      [⟨OutTarget.toRoomExcept r sockId, Payload.syncPosition r p "playing" now⟩]) ∧
    (∀ sock, sock ∈ channelSockets st.channels r → sock ≠ sockId →
      deliveredTo st.channels (OutTarget.toRoomExcept r sockId) sock) ∧
    ¬ deliveredTo st.channels (OutTarget.toRoomExcept r sockId) sockId := by
  refine ⟨?_, ?_, ?_, ?_, ?_⟩
  · simp only [handlePlay, hget]
    exact JsMap.get_set_self _ _ _
  · simp only [handlePlay, hget]
  · simp only [handlePlay, hget]
  · intro sock hs hne
    exact ⟨hs, hne⟩
  · intro hcon
    exact hcon.2 rfl

/-- The concrete one-room state used by several witnesses: room `"r"`
holds member `"u"` (socket `"s1"`), host `"u"`; the socket.io channel for
`"r"` has sockets `"s1"` and `"s2"` subscribed. -/
def wRoom : RoomState :=
  { members := [("u", ⟨"u", "alice", "s1", "T1"⟩)], socketToUser := [("s1", "u")],
    hostUserId := some "u", currentSong := none, position := 0, status := "idle",
    lastSync := 0 }

def wSt : ServerState :=
  { rooms := [("r", wRoom)], channels := [("r", ["s1", "s2"])], conns := [] }

/-- C5, witness: `play("r", 42.5)` from socket `"s1"` on the concrete
state: state update, single relay message, delivery to `"s2"` and not to
the sender `"s1"`. -/
theorem play_spec_witness :
    ((handlePlay wSt "s1" "r" (85/2) 5000).1.rooms.get "r" =
      some { wRoom with position := 85/2, status := "playing", lastSync := 5000 }) ∧
    ((handlePlay wSt "s1" "r" (85/2) 5000).2 =
      [⟨OutTarget.toRoomExcept "r" "s1", Payload.syncPosition "r" (85/2) "playing" 5000⟩]) ∧
    deliveredTo wSt.channels (OutTarget.toRoomExcept "r" "s1") "s2" ∧
    ¬ deliveredTo wSt.channels (OutTarget.toRoomExcept "r" "s1") "s1" := by
  obtain ⟨h1, h2, h3, h4, h5⟩ :=
    @play_spec wSt "s1" "r" wRoom (85/2) 5000 (by decide)
  exact ⟨h1, h3, h4 "s2" (by decide) (by decide), h5⟩

/-! ## C10 — transport events naming an unknown room id -/

/-- C10. For each transport-control or heartbeat event (`play`, `pause`,
`sync_position`, `song_change`, `next_song`, `vote`) naming a (nonempty)
room id that is not present in the store, the server state — the store in
particular — is left entirely unchanged (only `join_room` creates rooms),
yet the corresponding relay message is still emitted to that room id's
room-minus-sender broadcast channel. -/
theorem unknownRoom_relay_spec {st : ServerState} {r : String} (sockId : String)
    (hget : st.rooms.get r = none) (hr : r ≠ "") (p : Rat) (σ : String) (t now : Int)
    (song : Option Song) (payload : String) :
    handlePlay st sockId r p now =
      (st, [⟨OutTarget.toRoomExcept r sockId, Payload.syncPosition r p "playing" now⟩]) ∧
    handlePause st sockId r p now =
      (st, [⟨OutTarget.toRoomExcept r sockId, Payload.syncPosition r p "paused" now⟩]) ∧
    handleSyncPosition st sockId r p σ t now =
      (st, [⟨OutTarget.toRoomExcept r sockId, Payload.syncPosition r p σ now⟩]) ∧
    handleSongChange st sockId r song now =
      (st, [⟨OutTarget.toRoomExcept r sockId, Payload.songChange r song⟩]) ∧
    handleNextSong st sockId r now =
      (st, [⟨OutTarget.toRoomExcept r sockId, Payload.nextSong r⟩]) ∧
    handleVote st sockId ⟨r, payload⟩ =
      (st, [⟨OutTarget.toRoomExcept r sockId, Payload.voteMsg ⟨r, payload⟩⟩]) := by
  refine ⟨?_, ?_, ?_, ?_, ?_, ?_⟩
  · simp [handlePlay, hget]
  · simp [handlePause, hget]
  · simp [handleSyncPosition, hget]
  · simp [handleSongChange, hget]
  · simp [handleNextSong, hget]
  · simp [handleVote, hr]

/-- C10, witness: two of the six events at a state whose store has only
room `"r"`, naming the absent room id `"ghost"`. -/
theorem unknownRoom_relay_spec_witness :
    handlePlay wSt "s1" "ghost" 3 7000 =
      (wSt, [⟨OutTarget.toRoomExcept "ghost" "s1",
              Payload.syncPosition "ghost" 3 "playing" 7000⟩]) ∧
    handleVote wSt "s1" ⟨"ghost", "pollA"⟩ =
      (wSt, [⟨OutTarget.toRoomExcept "ghost" "s1", Payload.voteMsg ⟨"ghost", "pollA"⟩⟩]) := by
  obtain ⟨h1, h2, h3, h4, h5, h6⟩ :=
    @unknownRoom_relay_spec wSt "ghost" "s1" (by decide) (by decide)
      3 "playing" 0 7000 none "pollA"
  exact ⟨h1, h6⟩

/-! ## C2 — host departure promotes a successor -/

/-- Recognizer for `promoted_to_host` emissions. -/
def isPromotedToHost (msg : OutMsg) : Bool :=
  match msg.payload with
  | Payload.promotedToHost _ => true
  | _ => false

theorem doLeave_eq_nonempty {st : ServerState} {sockId : String} {conn : ConnState}
    {roomId : String} {room : RoomState} (hget : st.rooms.get roomId = some room)
    (hsz : ¬ (removeOnLeave room sockId (resolveLeaveUser room sockId conn)).members.size = 0) :
    doLeave st sockId conn roomId =
      (let room2 := removeOnLeave room sockId (resolveLeaveUser room sockId conn)
       let rp := reassignHost room2 roomId (resolveLeaveUser room sockId conn)
       ({ st with channels := channelLeave st.channels roomId sockId,
                  rooms := st.rooms.set roomId rp.1 },
        (if conn.currentRoomId = some roomId then
          ({ currentRoomId := none, currentUserId := none } : ConnState)
         else conn),
        rp.2 ++ [⟨OutTarget.toRoom roomId,
          Payload.membersUpdate roomId (serializeMembers rp.1 roomId)⟩])) := by
  simp only [doLeave, hget]
  rw [if_neg hsz]

theorem doLeave_eq_empty {st : ServerState} {sockId : String} {conn : ConnState}
    {roomId : String} {room : RoomState} (hget : st.rooms.get roomId = some room)
    (hsz : (removeOnLeave room sockId (resolveLeaveUser room sockId conn)).members.size = 0) :
    doLeave st sockId conn roomId =
      ({ st with channels := channelLeave st.channels roomId sockId,
                 rooms := st.rooms.delete roomId }, conn, []) := by
  simp only [doLeave, hget]
  rw [if_pos hsz]

/-- C2. If a departure (`doLeave`) removes the member entry of the user
who is the current `hostUserId` — the departing socket still being that
member's stored socket — and at least one member remains afterwards, then
`hostUserId` is set to the first member in the members map's enumeration
order, exactly one `promoted_to_host` message is emitted, addressed to
that successor's current socket only, and the new `hostUserId` is the
userId of a member present in the room. (`hkeyed` — every member entry is
keyed by its own userId — holds at every reachable state, by
`StoreInv.memberKeyed`.) -/
theorem host_departure_spec {st : ServerState} {sockId : String} {conn : ConnState}
    {roomId u : String} {room : RoomState} {mem succ : Member}
    (hget : st.rooms.get roomId = some room)
    (huid : resolveLeaveUser room sockId conn = some u)
    (hhost : room.hostUserId = some u)
    (hmem : room.members.get u = some mem)
    (hsock : mem.socketId = sockId)
    (hkeyed : ∀ p ∈ room.members, p.1 = p.2.userId)
    (hsucc : (room.members.delete u).values.head? = some succ) :
    ∃ room',
      (doLeave st sockId conn roomId).1.rooms.get roomId = some room' ∧
      room'.hostUserId = some succ.userId ∧
      succ.userId ∈ room'.members.keys ∧
      (doLeave st sockId conn roomId).2.2 =
        [⟨OutTarget.toSocket succ.socketId, Payload.promotedToHost roomId⟩,
         ⟨OutTarget.toRoom roomId,
          Payload.membersUpdate roomId (serializeMembers room' roomId)⟩] ∧
      (doLeave st sockId conn roomId).2.2.countP isPromotedToHost = 1 := by
  have hrm : removeOnLeave room sockId (resolveLeaveUser room sockId conn) =
      { room with members := room.members.delete u,
                  socketToUser := room.socketToUser.delete sockId } := by
    rw [huid]
    exact removeOnLeave_eq_of_current hmem hsock
  have hnil : room.members.delete u ≠ [] := by
    intro h
    rw [h] at hsucc
    simp [JsMap.values] at hsucc
  have hsz : ¬ (removeOnLeave room sockId
      (resolveLeaveUser room sockId conn)).members.size = 0 := by
    rw [hrm]
    intro h
    exact hnil (List.length_eq_zero.mp h)
  have hcond : (removeOnLeave room sockId
      (resolveLeaveUser room sockId conn)).hostUserId =
      resolveLeaveUser room sockId conn := by
    rw [removeOnLeave_hostUserId, hhost, huid]
  have hhead : (removeOnLeave room sockId
      (resolveLeaveUser room sockId conn)).members.values.head? = some succ := by
    rw [hrm]
    exact hsucc
  have hreassign : reassignHost (removeOnLeave room sockId (resolveLeaveUser room sockId conn))
      roomId (resolveLeaveUser room sockId conn) =
      ({ removeOnLeave room sockId (resolveLeaveUser room sockId conn) with
          hostUserId := some succ.userId },
       [⟨OutTarget.toSocket succ.socketId, Payload.promotedToHost roomId⟩]) := by
    rcases reassignHost_cases (removeOnLeave room sockId (resolveLeaveUser room sockId conn))
        roomId (resolveLeaveUser room sockId conn) with ⟨hne, _⟩ | ⟨_, hh, _⟩ |
        ⟨_, nh, hh, heq⟩
    · exact absurd hcond hne
    · rw [hhead] at hh
      exact absurd hh (by simp)
    · rw [hhead, Option.some_inj] at hh
      rw [heq, hh]
  have hsuccmem : succ.userId ∈ (room.members.delete u).keys := by
    obtain ⟨k, hk⟩ := JsMap.values_head_mem hsucc
    have hkeq : k = succ.userId := hkeyed (k, succ) (JsMap.mem_of_mem_delete hk)
    have hmk : k ∈ (room.members.delete u).keys := List.mem_map_of_mem Prod.fst hk
    rwa [hkeq] at hmk
  rw [doLeave_eq_nonempty hget hsz]
  simp only [hreassign]
  refine ⟨_, JsMap.get_set_self _ _ _, rfl, ?_, rfl, ?_⟩
  · show succ.userId ∈ (removeOnLeave room sockId (resolveLeaveUser room sockId conn)).members.keys
    rw [hrm]
    exact hsuccmem
  · simp [isPromotedToHost, List.countP_cons]

/-- The two-member room of the C2 witness: host `"u"` on socket `"s1"`,
second member `"v"` on socket `"s2"`. -/
def c2Room : RoomState :=
  { members := [("u", ⟨"u", "alice", "s1", "T1"⟩), ("v", ⟨"v", "bob", "s2", "T2"⟩)],
    socketToUser := [("s1", "u"), ("s2", "v")], hostUserId := some "u",
    currentSong := none, position := 0, status := "idle", lastSync := 0 }

def c2St : ServerState :=
  { rooms := [("r", c2Room)], channels := [("r", ["s1", "s2"])], conns := [] }

/-- C2, witness: the host's current socket `"s1"` departs the two-member
room; `"v"` is promoted, notified at its socket `"s2"`, and exactly one
`promoted_to_host` is emitted. -/
theorem host_departure_spec_witness :
    ∃ room',
      (doLeave c2St "s1" ⟨some "r", some "u"⟩ "r").1.rooms.get "r" = some room' ∧
      room'.hostUserId = some "v" ∧
      "v" ∈ room'.members.keys ∧
      (doLeave c2St "s1" ⟨some "r", some "u"⟩ "r").2.2 =
        [⟨OutTarget.toSocket "s2", Payload.promotedToHost "r"⟩,
         ⟨OutTarget.toRoom "r",
          Payload.membersUpdate "r" (serializeMembers room' "r")⟩] ∧
      (doLeave c2St "s1" ⟨some "r", some "u"⟩ "r").2.2.countP isPromotedToHost = 1 := by
  obtain ⟨room', h1, h2, h3, h4, h5⟩ := @host_departure_spec
    c2St "s1" ⟨some "r", some "u"⟩ "r" "u" c2Room ⟨"u", "alice", "s1", "T1"⟩
    ⟨"v", "bob", "s2", "T2"⟩
    (by decide) (by decide) (by decide) (by decide) (by decide) (by decide) (by decide)
  exact ⟨room', h1, h2, h3, h4, h5⟩

/-! ## C6 — stale-connection departures -/

/-- Recognizer for `members_update` emissions. -/
def isMembersUpdate (msg : OutMsg) : Bool :=
  match msg.payload with
  | Payload.membersUpdate _ _ => true
  | _ => false

/-- C6 counterexample trace: user `"u"` joins room `"r"` from socket
`"s1"`, then re-joins from a second socket `"s2"` (multi-tab); the member
entry's stored socket is now `"s2"`, so `"s1"` is stale. -/
def staleTrace : List TimedEvent :=
  [⟨.joinRoom "s1" "r" "u" "alice", 1000, "T1"⟩,
   ⟨.joinRoom "s2" "r" "u" "alice", 2000, "T2"⟩]

/-- C6, counterexample. In the reachable two-connection state of
`staleTrace`, the stale socket `"s1"` (which no longer matches the
member's stored socket `"s2"`) sends `leave_room`. The claim says the
room's observable behavior is a no-op — in particular no
`promoted_to_host` is sent and no member-list broadcast occurs. The code
disagrees: the member entry survives unchanged (last conjunct), yet
because the resolved user is the host, the reassignment branch runs and
exactly one `promoted_to_host` is emitted, plus a `members_update`. -/
theorem stale_leave_counterexample :
    (((runTrace staleTrace).rooms.get "r").map
      (fun room => (room.members.get "u").map Member.socketId)) = some (some "s2") ∧
    (step (runTrace staleTrace) (.leaveRoom "s1" "r") 3000 "T3").2.countP
      isPromotedToHost = 1 ∧
    (step (runTrace staleTrace) (.leaveRoom "s1" "r") 3000 "T3").2.countP
      isMembersUpdate = 1 ∧
    ((step (runTrace staleTrace) (.leaveRoom "s1" "r") 3000 "T3").1.rooms.get "r").map
      RoomState.members = ((runTrace staleTrace).rooms.get "r").map RoomState.members := by
  decide

/-- C6, amended. For a departure whose socket no longer matches the
member's stored socket (multi-tab stale departure), the member entry is
not removed (the members map is unchanged); but the handler is not a full
no-op: a `members_update` carrying the unchanged list is still broadcast
to the room, and when the resolved user is the current host the
host-reassignment branch still runs — `hostUserId` is set to the first
member in enumeration order (possibly the same user) and a
`promoted_to_host` is sent to that member's current socket. Only when the
resolved user is not the host is `hostUserId` untouched with no
`promoted_to_host` sent. -/
theorem stale_departure_spec {st : ServerState} {sockId : String} {conn : ConnState}
    {roomId u : String} {room : RoomState} {mem : Member}
    (hget : st.rooms.get roomId = some room)
    (huid : resolveLeaveUser room sockId conn = some u)
    (hmem : room.members.get u = some mem)
    (hsock : mem.socketId ≠ sockId) :
    ∃ room',
      (doLeave st sockId conn roomId).1.rooms.get roomId = some room' ∧
      room'.members = room.members ∧
      (room.hostUserId ≠ some u →
        room'.hostUserId = room.hostUserId ∧
        (doLeave st sockId conn roomId).2.2 =
          [⟨OutTarget.toRoom roomId,
            Payload.membersUpdate roomId (serializeMembers room' roomId)⟩]) ∧
      (room.hostUserId = some u →
        ∃ nh, room.members.values.head? = some nh ∧
          room'.hostUserId = some nh.userId ∧
          (doLeave st sockId conn roomId).2.2 =
            [⟨OutTarget.toSocket nh.socketId, Payload.promotedToHost roomId⟩,
             ⟨OutTarget.toRoom roomId,
              Payload.membersUpdate roomId (serializeMembers room' roomId)⟩]) := by
  have hrm : removeOnLeave room sockId (resolveLeaveUser room sockId conn) =
      { room with socketToUser := room.socketToUser.delete sockId } := by
    rw [huid]
    exact removeOnLeave_eq_of_stale hmem hsock
  have hnil : room.members ≠ [] := by
    intro h
    rw [h] at hmem
    simp [JsMap.get] at hmem
  have hsz : ¬ (removeOnLeave room sockId
      (resolveLeaveUser room sockId conn)).members.size = 0 := by
    rw [hrm]
    intro h0
    exact hnil (List.length_eq_zero.mp h0)
  rw [doLeave_eq_nonempty hget hsz]
  by_cases hhost : room.hostUserId = some u
  · have hcond : (removeOnLeave room sockId
        (resolveLeaveUser room sockId conn)).hostUserId =
        resolveLeaveUser room sockId conn := by
      rw [removeOnLeave_hostUserId, hhost, huid]
    cases hh : room.members.values.head? with
    | none =>
      exfalso
      cases hm : room.members with
      | nil => exact hnil hm
      | cons p rest =>
        rw [hm] at hh
        simp [JsMap.values] at hh
    | some nh =>
      have hhead : (removeOnLeave room sockId
          (resolveLeaveUser room sockId conn)).members.values.head? = some nh := by
        rw [hrm]
        exact hh
      have hreassign : reassignHost
          (removeOnLeave room sockId (resolveLeaveUser room sockId conn)) roomId
          (resolveLeaveUser room sockId conn) =
          ({ removeOnLeave room sockId (resolveLeaveUser room sockId conn) with
              hostUserId := some nh.userId },
           [⟨OutTarget.toSocket nh.socketId, Payload.promotedToHost roomId⟩]) := by
        rcases reassignHost_cases
            (removeOnLeave room sockId (resolveLeaveUser room sockId conn)) roomId
            (resolveLeaveUser room sockId conn) with ⟨hne, _⟩ | ⟨_, hh0, _⟩ |
            ⟨_, nh0, hh0, heq⟩
        · exact absurd hcond hne
        · rw [hhead] at hh0
          exact absurd hh0 (by simp)
        · rw [hhead, Option.some_inj] at hh0
          rw [heq, hh0]
      simp only [hreassign]
      refine ⟨_, JsMap.get_set_self _ _ _, ?_, ?_, ?_⟩
      · show (removeOnLeave room sockId
          (resolveLeaveUser room sockId conn)).members = room.members
        rw [hrm]
      · intro hcon
        exact absurd hhost hcon
      · intro _
        exact ⟨nh, rfl, rfl, rfl⟩
  · have hcond : ¬ ((removeOnLeave room sockId
        (resolveLeaveUser room sockId conn)).hostUserId =
        resolveLeaveUser room sockId conn) := by
      rw [removeOnLeave_hostUserId, huid]
      exact hhost
    have hreassign : reassignHost
        (removeOnLeave room sockId (resolveLeaveUser room sockId conn)) roomId
        (resolveLeaveUser room sockId conn) =
        (removeOnLeave room sockId (resolveLeaveUser room sockId conn), []) := by
      rcases reassignHost_cases
          (removeOnLeave room sockId (resolveLeaveUser room sockId conn)) roomId
          (resolveLeaveUser room sockId conn) with ⟨_, heq⟩ | ⟨hc, _, _⟩ | ⟨hc, _, _, _⟩
      · exact heq
      · exact absurd hc hcond
      · exact absurd hc hcond
    simp only [hreassign]
    refine ⟨_, JsMap.get_set_self _ _ _, ?_, ?_, ?_⟩
    · show (removeOnLeave room sockId
        (resolveLeaveUser room sockId conn)).members = room.members
      rw [hrm]
    · intro _
      exact ⟨removeOnLeave_hostUserId room sockId _, rfl⟩
    · intro hcon
      exact absurd hcon hhost

/-- The one-member multi-tab room of the C6 witness: member `"u"` whose
stored socket is `"s2"`; socket `"s1"` is a stale connection of the same
user, and `"u"` is host. -/
def c6Room : RoomState :=
  { members := [("u", ⟨"u", "alice", "s2", "T1"⟩)],
    socketToUser := [("s1", "u"), ("s2", "u")], hostUserId := some "u",
    currentSong := none, position := 0, status := "idle", lastSync := 0 }

def c6St : ServerState :=
  { rooms := [("r", c6Room)], channels := [("r", ["s1", "s2"])], conns := [] }

/-- C6, witness: the amended statement evaluated on the concrete stale
departure — member entry untouched, host re-pointed at the same user, and
the promotion notice goes to the user's current socket `"s2"`. -/
theorem stale_departure_spec_witness :
    ∃ room',
      (doLeave c6St "s1" ⟨some "r", some "u"⟩ "r").1.rooms.get "r" = some room' ∧
      room'.members = c6Room.members ∧
      room'.hostUserId = some "u" ∧
      (doLeave c6St "s1" ⟨some "r", some "u"⟩ "r").2.2 =
        [⟨OutTarget.toSocket "s2", Payload.promotedToHost "r"⟩,
         ⟨OutTarget.toRoom "r",
          Payload.membersUpdate "r" (serializeMembers room' "r")⟩] := by
  obtain ⟨room', h1, h2, _, h4⟩ := @stale_departure_spec c6St "s1"
    ⟨some "r", some "u"⟩ "r" "u" c6Room
    ⟨"u", "alice", "s2", "T1"⟩ (by decide) (by decide) (by decide) (by decide)
  obtain ⟨nh, hh, hh2, hh3⟩ := h4 (by decide)
  have h0 : (some nh : Option Member) = some ⟨"u", "alice", "s2", "T1"⟩ := by
    rw [← hh]
    rfl
  have hnh : nh = ⟨"u", "alice", "s2", "T1"⟩ := Option.some_inj.mp h0
  refine ⟨room', h1, h2, ?_, ?_⟩
  · rw [hh2, hnh]
  · rw [hh3, hnh]

/-! ## C7 — malformed inbound messages -/

/-- The raw store of the C7 counterexample: room `"r"` with one member
and numeric position 5. -/
def c7Store : JsMap String RawRoom :=
  [("r", { members := [("u", ⟨"u", "alice", "s1", "T1"⟩)], socketToUser := [("s1", "u")],
           hostUserId := some "u", currentSong := none, position := JsNum.num 5,
           status := "idle", lastSync := 0 })]

/-- C7, counterexample. A `play` message carrying `room_id = "r"` but no
`position` field (the field arrives as `undefined`) is NOT dropped
silently: the handler stores the undefined value into the room's
`position` (state change), emits the relay, and then throws a `TypeError`
at `position.toFixed(2)` in the logging statement (line 198) — an
uncaught handler exception, crashing the process. All three parts of the
silent-drop claim fail. -/
theorem malformed_play_counterexample :
    (handlePlayRaw c7Store "s1" (some "r") JsNum.undef 1000).2.2 = true ∧
    (handlePlayRaw c7Store "s1" (some "r") JsNum.undef 1000).1 ≠ c7Store ∧
    (handlePlayRaw c7Store "s1" (some "r") JsNum.undef 1000).2.1 ≠ [] := by
  decide

/-- C7, amended. The silent-drop policy holds only where the code
explicitly guards: `join_room` drops any message whose `room_id` or
`user_id` is missing or empty (no state change, no reply, no crash), and
`request_state` with a missing or unknown room id is a silent no-op. The
other handlers do not validate: a `play` whose `position` field is
missing still mutates the room (storing the undefined value), still
emits the relay, and then throws while logging, crashing the process. -/
theorem malformed_input_spec :
    (∀ st sockId room_id user_id username now iso,
      (jsFalsyOptStr room_id || jsFalsyOptStr user_id) = true →
      handleJoinRaw st sockId room_id user_id username now iso = (st, [])) ∧
    (∀ st sockId now, handleRequestStateRaw st sockId none now = (st, [])) ∧
    (∀ (st : ServerState) sockId r now, st.rooms.get r = none →
      handleRequestStateRaw st sockId (some r) now = (st, [])) ∧
    (∀ rooms sockId r room now, JsMap.get rooms r = some room →
      (handlePlayRaw rooms sockId (some r) JsNum.undef now).2.2 = true ∧
      (handlePlayRaw rooms sockId (some r) JsNum.undef now).1 =
        rooms.set r { room with position := JsNum.undef, status := "playing",
                                lastSync := now } ∧
      (handlePlayRaw rooms sockId (some r) JsNum.undef now).2.1 =
        [⟨some r, sockId, JsNum.undef, "playing", now⟩]) := by
  refine ⟨?_, ?_, ?_, ?_⟩
  · intro st sockId rid uid un now iso h
    simp [handleJoinRaw, h]
  · intro st sockId now
    rfl
  · intro st sockId r now hget
    simp [handleRequestStateRaw, handleRequestState, hget]
  · intro rooms sockId r room now hget
    refine ⟨rfl, ?_, rfl⟩
    simp [handlePlayRaw, hget]

/-- C7, witness: the amended statement at concrete inputs — a join with
missing `user_id` is dropped; a `play` with missing `position` on
`c7Store` crashes after mutating the store. -/
theorem malformed_input_spec_witness :
    handleJoinRaw ⟨[], [], []⟩ "s1" (some "r") none (some "alice") 1000 "T1" =
      (⟨[], [], []⟩, []) ∧
    handleRequestStateRaw ⟨[], [], []⟩ "s1" none 1000 = (⟨[], [], []⟩, []) ∧
    (handlePlayRaw c7Store "s1" (some "r") JsNum.undef 1000).2.2 = true := by
  refine ⟨?_, malformed_input_spec.2.1 ⟨[], [], []⟩ "s1" 1000, ?_⟩
  · exact malformed_input_spec.1 ⟨[], [], []⟩ "s1" (some "r") none (some "alice") 1000 "T1"
      (by decide)
  · exact (malformed_input_spec.2.2.2 c7Store "s1" "r"
      { members := [("u", ⟨"u", "alice", "s1", "T1"⟩)], socketToUser := [("s1", "u")],
        hostUserId := some "u", currentSong := none, position := JsNum.num 5,
        status := "idle", lastSync := 0 } 1000 (by decide)).1

/-! ## C8 — playback status values -/

/-- The three statuses of the `RoomState` TS type annotation. -/
def validStatuses : List String := ["playing", "paused", "idle"]

theorem removeOnLeave_status (room : RoomState) (s : String) (uid : Option String) :
    (removeOnLeave room s uid).status = room.status := by
  cases uid with
  | none => rfl
  | some u =>
    unfold removeOnLeave
    cases hm : room.members.get u with
    | none => simp [hm]
    | some mem => by_cases hs : mem.socketId = s <;> simp [hm, hs]

theorem reassignHost_status (room : RoomState) (rid : String) (uid : Option String) :
    (reassignHost room rid uid).1.status = room.status := by
  rcases reassignHost_cases room rid uid with ⟨_, he⟩ | ⟨_, _, he⟩ | ⟨_, nh, _, he⟩ <;>
    simp [he]

theorem upsertMember_status (room : RoomState) (s u n iso : String) :
    (upsertMember room s u n iso).status = room.status := by
  unfold upsertMember
  by_cases h : jsFalsyOptStr room.hostUserId <;> simp [h]

/-- All stored rooms carry one of the three annotated statuses. -/
def statusInv (st : ServerState) : Prop :=
  ∀ r room, st.rooms.get r = some room → room.status ∈ validStatuses

/-- True unless the event is a `sync_position` heartbeat carrying a
status string outside the annotated three. -/
def validStatusEvent : Event → Bool
  | .syncPosition _ _ _ σ _ => decide (σ ∈ validStatuses)
  | _ => true

theorem statusInv_set_room {st : ServerState} (inv : statusInv st) {roomId : String}
    {room : RoomState} (h : room.status ∈ validStatuses) (ch : Channels)
    (cs : JsMap String ConnState) : statusInv ⟨st.rooms.set roomId room, ch, cs⟩ := by
  intro r room' hr
  rcases get_set_cases hr with ⟨_, rfl⟩ | ⟨_, hget⟩
  · exact h
  · exact inv r room' hget

theorem statusInv_delete_room {st : ServerState} (inv : statusInv st)
    (hnd : st.rooms.keys.Nodup) (roomId : String) (ch : Channels)
    (cs : JsMap String ConnState) : statusInv ⟨st.rooms.delete roomId, ch, cs⟩ := by
  intro r room hr
  exact inv r room (get_delete_eq_some hnd hr)

theorem statusInv_doLeave {st : ServerState} (sinv : StoreInv st) (inv : statusInv st)
    (sockId : String) (conn : ConnState) (roomId : String) :
    statusInv (doLeave st sockId conn roomId).1 := by
  cases hget : st.rooms.get roomId with
  | none =>
    simp only [doLeave, hget]
    exact inv
  | some room =>
    by_cases hsz :
        (removeOnLeave room sockId (resolveLeaveUser room sockId conn)).members.size = 0
    · rw [doLeave_eq_empty hget hsz]
      exact statusInv_delete_room inv sinv.roomsNodup roomId _ _
    · rw [doLeave_eq_nonempty hget hsz]
      have inv' : statusInv ({ st with channels := channelLeave st.channels roomId sockId }) :=
        fun r' room' h => inv r' room' h
      refine statusInv_set_room inv' ?_ _ _
      rw [reassignHost_status, removeOnLeave_status]
      exact inv roomId room hget

theorem statusInv_joinCore {st : ServerState} (inv : statusInv st) (sockId r u n : String)
    (now : Int) (iso : String) : statusInv (joinCore st sockId r u n now iso).1 := by
  simp only [joinCore, setConn]
  have inv' : statusInv ({ st with channels := channelJoin st.channels r sockId }) :=
    fun r' room' h => inv r' room' h
  refine statusInv_set_room inv' ?_ _ _
  rw [upsertMember_status]
  cases hb : st.rooms.get r with
  | none => simp [freshRoom, validStatuses]
  | some roomB =>
    have := inv r roomB hb
    simpa [hb] using this

theorem statusInv_joinLeaveRes {st : ServerState} (sinv : StoreInv st) (inv : statusInv st)
    (sockId r : String) : statusInv (joinLeaveRes st sockId r).1 := by
  unfold joinLeaveRes
  cases hcr : (getConn st sockId).currentRoomId with
  | none => exact inv
  | some prev =>
    show statusInv
      (if prev ≠ r then doLeave st sockId (getConn st sockId) prev
       else (st, getConn st sockId, [])).1
    by_cases hp : prev ≠ r
    · rw [if_pos hp]
      exact statusInv_doLeave sinv inv sockId _ prev
    · rw [if_neg hp]
      exact inv

theorem statusInv_step {st : ServerState} (sinv : StoreInv st) (inv : statusInv st)
    {e : Event} (he : validStatusEvent e = true) (now : Int) (iso : String) :
    statusInv (step st e now iso).1 := by
  cases e with
  | joinRoom s r u n =>
    by_cases hg : r = "" ∨ u = ""
    · simp only [step, handleJoin, hg, if_true]
      exact inv
    · simp only [step, handleJoin, hg, if_false]
      exact statusInv_joinCore (statusInv_joinLeaveRes sinv inv s r) s r u n now iso
  | requestState s r =>
    cases hget : st.rooms.get r with
    | none => simp only [step, handleRequestState, hget]; exact inv
    | some room => simp only [step, handleRequestState, hget]; exact inv
  | syncPosition s r p σ t =>
    cases hget : st.rooms.get r with
    | none => simp only [step, handleSyncPosition, hget]; exact inv
    | some room =>
      simp only [step, handleSyncPosition, hget]
      refine statusInv_set_room inv ?_ _ _
      exact of_decide_eq_true he
  | play s r p =>
    cases hget : st.rooms.get r with
    | none => simp only [step, handlePlay, hget]; exact inv
    | some room =>
      simp only [step, handlePlay, hget]
      refine statusInv_set_room inv ?_ _ _
      simp [validStatuses]
  | pause s r p =>
    cases hget : st.rooms.get r with
    | none => simp only [step, handlePause, hget]; exact inv
    | some room =>
      simp only [step, handlePause, hget]
      refine statusInv_set_room inv ?_ _ _
      simp [validStatuses]
  | songChange s r song =>
    cases hget : st.rooms.get r with
    | none => simp only [step, handleSongChange, hget]; exact inv
    | some room =>
      simp only [step, handleSongChange, hget]
      refine statusInv_set_room inv ?_ _ _
      by_cases hs : song.isSome <;> simp [hs, validStatuses]
  | nextSong s r =>
    cases hget : st.rooms.get r with
    | none => simp only [step, handleNextSong, hget]; exact inv
    | some room =>
      simp only [step, handleNextSong, hget]
      refine statusInv_set_room inv ?_ _ _
      exact inv r room hget
  | voteEvent s d =>
    simp only [step]
    unfold handleVote
    by_cases h : d.room_id ≠ ""
    · rw [if_pos h]; exact inv
    · rw [if_neg h]; exact inv
  | leaveRoom s r =>
    have h := statusInv_doLeave sinv inv s (getConn st s) r
    exact fun r' room' hr => h r' room' hr
  | disconnect s =>
    cases hcr : (getConn st s).currentRoomId with
    | none =>
      simp only [step, handleDisconnect, hcr]
      exact fun r' room' hr => inv r' room' hr
    | some roomId =>
      simp only [step, handleDisconnect, hcr]
      exact fun r' room' hr =>
        statusInv_doLeave sinv inv s (getConn st s) roomId r' room' hr

/-- C8 counterexample trace: a join creating room `"r"`, then a
`sync_position` heartbeat whose status field is the arbitrary client
string `"banana"`. -/
def badStatusTrace : List TimedEvent :=
  [⟨.joinRoom "s1" "r" "u" "alice", 1000, "T1"⟩,
   ⟨.syncPosition "s1" "r" 5 "banana" 999, 2000, "T2"⟩]

/-- C8, counterexample. The claim asserts every reachable room status is
one of `playing`/`paused`/`idle` even after heartbeats with arbitrary
status strings. The `sync_position` handler (line 174) writes the
client-supplied string through an unchecked cast, so the reachable state
after `badStatusTrace` stores status `"banana"`. -/
theorem status_counterexample :
    ∃ st room, Reachable st ∧ st.rooms.get "r" = some room ∧
      room.status ∉ validStatuses := by
  refine ⟨runTrace badStatusTrace,
    ⟨[("u", ⟨"u", "alice", "s1", "T1"⟩)], [("s1", "u")], some "u", none, 5, "banana", 2000⟩,
    reachable_runTrace badStatusTrace, by decide, by decide⟩

/-- C8, amended. The `sync_position` handler stores the client-supplied
status string verbatim (together with the position, stamping `lastSync`
with the receipt time), so the three-value status invariant holds exactly
for runs whose heartbeats only carry the three annotated statuses: for
every trace from startup in which each `sync_position` event's status is
in {playing, paused, idle}, every stored room's status is in that set
(all other handlers only ever write one of the three). -/
theorem status_spec :
    (∀ (st : ServerState) (sockId r : String) (p : Rat) (σ : String) (t now : Int) room,
      st.rooms.get r = some room →
      (handleSyncPosition st sockId r p σ t now).1.rooms.get r =
        some { room with position := p, status := σ, lastSync := now }) ∧
    (∀ tes : List TimedEvent, (∀ te ∈ tes, validStatusEvent te.ev = true) →
      ∀ r room, (runTrace tes).rooms.get r = some room → room.status ∈ validStatuses) := by
  constructor
  · intro st sockId r p σ t now room hget
    simp only [handleSyncPosition, hget]
    exact JsMap.get_set_self _ _ _
  · have main : ∀ (tes : List TimedEvent) (st : ServerState), StoreInv st → statusInv st →
        (∀ te ∈ tes, validStatusEvent te.ev = true) → statusInv (runTraceFrom st tes) := by
      intro tes
      induction tes with
      | nil =>
        intro st _ hstat _
        exact hstat
      | cons te rest ih =>
        intro st hstore hstat hval
        exact ih _ (storeInv_step hstore te.ev te.now te.iso)
          (statusInv_step hstore hstat (hval te (List.mem_cons_self _ _)) te.now te.iso)
          (fun te' h => hval te' (List.mem_cons_of_mem _ h))
    intro tes hval
    exact main tes initState storeInv_initState
      (fun r room h => by simp [initState, JsMap.get] at h) hval

/-- C8, witness: the amended statement instantiated — a heartbeat with
status `"paused"` stores `"paused"` verbatim, and on a trace whose
heartbeats all carry annotated statuses every stored room's status is
annotated. -/
theorem status_spec_witness :
    ((handleSyncPosition wSt "s1" "r" 7 "paused" 0 9000).1.rooms.get "r" =
      some { wRoom with position := 7, status := "paused", lastSync := 9000 }) ∧
    (∀ r room,
      (runTrace [⟨.joinRoom "s1" "r" "u" "alice", 1000, "T1"⟩,
        ⟨.syncPosition "s1" "r" 5 "paused" 999, 2000, "T2"⟩]).rooms.get r = some room →
      room.status ∈ validStatuses) := by
  constructor
  · exact status_spec.1 wSt "s1" "r" 7 "paused" 0 9000 wRoom (by decide)
  · exact status_spec.2
      [⟨.joinRoom "s1" "r" "u" "alice", 1000, "T1"⟩,
       ⟨.syncPosition "s1" "r" 5 "paused" 999, 2000, "T2"⟩] (by decide)

/-! ## C3 — room existence ↔ nonempty membership -/

/-- C3. (i) At every reachable state a stored room has at least one
member (so a room id is present iff its room is inhabited — the converse
direction is vacuous). (ii) A join naming an unknown room id creates the
room with the joiner present. (iii) A departure by the last member's
current socket deletes the room synchronously, with no emission.
(iv) A `request_state` for an absent room id returns the state unchanged
and sends nothing — the room is not resurrected. -/
theorem room_existence_spec :
    (∀ st : ServerState, Reachable st →
      ∀ r room, st.rooms.get r = some room → room.members ≠ []) ∧
    (∀ (st : ServerState) (sockId r u n : String) (now : Int) (iso : String),
      r ≠ "" → u ≠ "" → st.rooms.get r = none →
      ∃ room', (handleJoin st sockId r u n now iso).1.rooms.get r = some room' ∧
        (room'.members.get u).isSome) ∧
    (∀ (st : ServerState) (sockId : String) (conn : ConnState) (roomId u : String)
        (room : RoomState) (mem : Member),
      st.rooms.keys.Nodup →
      st.rooms.get roomId = some room →
      resolveLeaveUser room sockId conn = some u →
      room.members.get u = some mem → mem.socketId = sockId →
      room.members.delete u = [] →
      (doLeave st sockId conn roomId).1.rooms.get roomId = none ∧
      (doLeave st sockId conn roomId).2.2 = []) ∧
    (∀ (st : ServerState) (sockId r : String) (now : Int),
      st.rooms.get r = none → handleRequestState st sockId r now = (st, [])) := by
  refine ⟨?_, ?_, ?_, ?_⟩
  · intro st hreach r room hget
    exact (reachable_storeInv hreach).membersNonempty r room hget
  · intro st sockId r u n now iso hr hu hget
    refine ⟨_, handleJoin_rooms_get hr hu, ?_⟩
    rw [upsertMember_members, JsMap.get_set_self]
    rfl
  · intro st sockId conn roomId u room mem hnd hget huid hmem hsock hdel
    have hrm : removeOnLeave room sockId (resolveLeaveUser room sockId conn) =
        { room with members := room.members.delete u,
                    socketToUser := room.socketToUser.delete sockId } := by
      rw [huid]
      exact removeOnLeave_eq_of_current hmem hsock
    have hsz : (removeOnLeave room sockId
        (resolveLeaveUser room sockId conn)).members.size = 0 := by
      rw [hrm]
      show (room.members.delete u).length = 0
      rw [hdel]
      rfl
    rw [doLeave_eq_empty hget hsz]
    exact ⟨JsMap.get_delete_self _ _ hnd, rfl⟩
  · intro st sockId r now hget
    simp [handleRequestState, hget]

/-- C3, witness: (ii) joining the unknown room `"r"` at startup creates
it with the joiner present; (iii) the last member of `wSt`'s room leaving
deletes the room and emits nothing; (iv) `request_state` at startup for
`"r"` is a silent no-op; (i) the room of a concrete reachable state is
inhabited. -/
theorem room_existence_spec_witness :
    (∃ room', (handleJoin initState "s1" "r" "u" "alice" 1000 "T1").1.rooms.get "r" =
        some room' ∧ (room'.members.get "u").isSome) ∧
    ((doLeave wSt "s1" ⟨some "r", some "u"⟩ "r").1.rooms.get "r" = none ∧
     (doLeave wSt "s1" ⟨some "r", some "u"⟩ "r").2.2 = []) ∧
    handleRequestState initState "s1" "r" 1000 = (initState, []) ∧
    (∀ room, (runTrace [⟨.joinRoom "s1" "r" "u" "alice", 1000, "T1"⟩]).rooms.get "r" =
        some room → room.members ≠ []) := by
  refine ⟨?_, ?_, ?_, ?_⟩
  · exact room_existence_spec.2.1 initState "s1" "r" "u" "alice" 1000 "T1"
      (by decide) (by decide) (by decide)
  · exact room_existence_spec.2.2.1 wSt "s1" ⟨some "r", some "u"⟩ "r" "u" wRoom
      ⟨"u", "alice", "s1", "T1"⟩ (by decide) (by decide) (by decide) (by decide)
      (by decide) (by decide)
  · exact room_existence_spec.2.2.2 initState "s1" "r" 1000 (by decide)
  · intro room h
    exact room_existence_spec.1 _ (reachable_runTrace _) "r" room h

/-! ## C9 — the host invariant -/

/-- C9. (i) At every reachable state, a non-null `hostUserId` is the
userId of a member present in the room. (ii) When a user joins a room
whose `hostUserId` is null (or a not-yet-existing room, created with a
null host), `hostUserId` is set to the joining userId. -/
theorem host_invariant_spec :
    (∀ st : ServerState, Reachable st →
      ∀ r room h, st.rooms.get r = some room → room.hostUserId = some h →
        h ∈ room.members.keys) ∧
    (∀ (st : ServerState) (sockId r u n : String) (now : Int) (iso : String),
      r ≠ "" → u ≠ "" →
      (∀ room, st.rooms.get r = some room → room.hostUserId = none) →
      ∃ room', (handleJoin st sockId r u n now iso).1.rooms.get r = some room' ∧
        room'.hostUserId = some u) := by
  constructor
  · intro st hreach r room h hget hhost
    exact (reachable_storeInv hreach).hostMem r room h hget hhost
  · intro st sockId r u n now iso hr hu hnull
    refine ⟨_, handleJoin_rooms_get hr hu, ?_⟩
    rcases upsertMember_host ((st.rooms.get r).getD (freshRoom now)) sockId u n iso with
      hh | ⟨hfal, hh⟩
    · exact hh
    · exfalso
      cases hb : st.rooms.get r with
      | none =>
        rw [hb] at hfal
        simp [freshRoom, jsFalsyOptStr] at hfal
      | some roomB =>
        have hnn := hnull roomB hb
        rw [hb] at hfal
        simp [hnn, jsFalsyOptStr] at hfal

/-- C9, witness: joining the fresh room `"r"` at startup makes the joiner
host, and on a concrete reachable state the non-null host is a present
member. -/
theorem host_invariant_spec_witness :
    (∃ room', (handleJoin initState "s1" "r" "u" "alice" 1000 "T1").1.rooms.get "r" =
        some room' ∧ room'.hostUserId = some "u") ∧
    (∀ room h, (runTrace [⟨.joinRoom "s1" "r" "u" "alice", 1000, "T1"⟩]).rooms.get "r" =
        some room → room.hostUserId = some h → h ∈ room.members.keys) := by
  constructor
  · exact host_invariant_spec.2 initState "s1" "r" "u" "alice" 1000 "T1"
      (by decide) (by decide) (fun room h => by simp [initState, JsMap.get] at h)
  · intro room h hget hhost
    exact host_invariant_spec.1 _ (reachable_runTrace _) "r" room h hget hhost

/-! ## C4 — member deduplication across re-joins -/

/-- Run a sequence of `join_room` events for the same room and user; each
item carries (socket id, username, receipt time, iso timestamp). -/
def joinSeq (st : ServerState) (r u : String) :
    List (String × String × Int × String) → ServerState
  | [] => st
  | j :: rest => joinSeq (handleJoin st j.1 r u j.2.1 j.2.2.1 j.2.2.2).1 r u rest

/-- The socket id of the most recent join in the sequence (`dflt` when
the sequence is empty). -/
def lastSocket (js : List (String × String × Int × String)) (dflt : String) : String :=
  match js.getLast? with
  | some l => l.1
  | none => dflt

theorem getLast?_cons_ne_none {X : Type} (a : X) (l : List X) :
    (a :: l).getLast? ≠ none := by
  induction l generalizing a with
  | nil => simp [List.getLast?]
  | cons b rest ih =>
    rw [List.getLast?_cons_cons]
    exact ih b

theorem lastSocket_cons (j : String × String × Int × String)
    (js : List (String × String × Int × String)) (d : String) :
    lastSocket (j :: js) d = lastSocket js j.1 := by
  cases js with
  | nil => rfl
  | cons j2 rest =>
    unfold lastSocket
    rw [List.getLast?_cons_cons]
    cases hl : (j2 :: rest).getLast? with
    | none => exact absurd hl (getLast?_cons_ne_none _ _)
    | some l => rfl

/-- One re-join of an already-present user: exactly-one entry, preserved
`joinedAt`, overwritten socket id. -/
theorem handleJoin_rejoin {st : ServerState} {r u : String} {room : RoomState} {mem : Member}
    (hr : r ≠ "") (hu : u ≠ "") (hget : st.rooms.get r = some room)
    (hmem : room.members.get u = some mem) (hcount : room.members.keys.count u = 1)
    (sockId n : String) (now : Int) (iso : String) :
    ∃ room', (handleJoin st sockId r u n now iso).1.rooms.get r = some room' ∧
      room'.members.get u =
        some ⟨u, jsOrStr n "Anonymous", sockId, mem.joinedAt⟩ ∧
      room'.members.keys.count u = 1 := by
  refine ⟨_, handleJoin_rooms_get hr hu, ?_, ?_⟩
  · rw [upsertMember_members, JsMap.get_set_self, hget]
    have hj : upsertJoinedAt room u iso = mem.joinedAt := by
      unfold upsertJoinedAt
      simp [JsMap.has, hmem]
    rw [show (some room).getD (freshRoom now) = room from rfl, hj]
  · rw [upsertMember_members, hget]
    rw [show (some room).getD (freshRoom now) = room from rfl]
    rw [JsMap.count_keys_set_of_isSome _ (by simp [hmem])]
    exact hcount

theorem joinSeq_preserves {r u : String} (hr : r ≠ "") (hu : u ≠ "")
    (js : List (String × String × Int × String)) :
    ∀ (st : ServerState) (room : RoomState) (mem : Member),
      st.rooms.get r = some room → room.members.get u = some mem →
      room.members.keys.count u = 1 →
      ∃ room' mem', (joinSeq st r u js).rooms.get r = some room' ∧
        room'.members.get u = some mem' ∧
        room'.members.keys.count u = 1 ∧
        mem'.joinedAt = mem.joinedAt ∧
        mem'.socketId = lastSocket js mem.socketId := by
  induction js with
  | nil =>
    intro st room mem hget hmem hcount
    exact ⟨room, mem, hget, hmem, hcount, rfl, rfl⟩
  | cons j rest ih =>
    intro st room mem hget hmem hcount
    obtain ⟨room1, hget1, hmem1, hcount1⟩ :=
      handleJoin_rejoin hr hu hget hmem hcount j.1 j.2.1 j.2.2.1 j.2.2.2
    obtain ⟨room', mem', hg, hm, hc, hja, hso⟩ := ih _ room1
      ⟨u, jsOrStr j.2.1 "Anonymous", j.1, mem.joinedAt⟩ hget1 hmem1 hcount1
    refine ⟨room', mem', hg, hm, hc, hja, ?_⟩
    rw [hso, lastSocket_cons]

/-- C4. For every sequence of `join_room` events to the same room `r`
carrying the same userId `u` (from the same or different sockets),
starting from any state where `u` is not yet a member of `r` (or `r` does
not exist), the room's members map afterwards holds exactly one entry for
`u`; its `joinedAt` is the ISO timestamp recorded at the first of those
joins, and its stored socket id is that of the most recent join. -/
theorem join_dedup_spec {st : ServerState} {r u : String} (hr : r ≠ "") (hu : u ≠ "")
    (hinit : ∀ room, st.rooms.get r = some room → room.members.get u = none)
    (j : String × String × Int × String) (js : List (String × String × Int × String)) :
    ∃ room' mem,
      (joinSeq st r u (j :: js)).rooms.get r = some room' ∧
      room'.members.get u = some mem ∧
      room'.members.keys.count u = 1 ∧
      mem.joinedAt = j.2.2.2 ∧
      mem.socketId = lastSocket (j :: js) "" := by
  have hbase : ((st.rooms.get r).getD (freshRoom j.2.2.1)).members.get u = none := by
    cases hb : st.rooms.get r with
    | none => rfl
    | some room =>
      have := hinit room hb
      simpa [hb] using this
  have hbcount : ((st.rooms.get r).getD (freshRoom j.2.2.1)).members.keys.count u = 0 := by
    rw [List.count_eq_zero]
    intro hmemk
    have := JsMap.get_isSome_of_mem_keys _ hmemk
    rw [hbase] at this
    simp at this
  obtain hget1 := @handleJoin_rooms_get st j.1 r u j.2.1 j.2.2.1 j.2.2.2 hr hu
  have hja : upsertJoinedAt ((st.rooms.get r).getD (freshRoom j.2.2.1)) u j.2.2.2 =
      j.2.2.2 := by
    unfold upsertJoinedAt
    simp [JsMap.has, hbase]
  have hmem1 : (upsertMember ((st.rooms.get r).getD (freshRoom j.2.2.1)) j.1 u j.2.1
      j.2.2.2).members.get u =
      some ⟨u, jsOrStr j.2.1 "Anonymous", j.1, j.2.2.2⟩ := by
    rw [upsertMember_members, JsMap.get_set_self, hja]
  have hcount1 : (upsertMember ((st.rooms.get r).getD (freshRoom j.2.2.1)) j.1 u j.2.1
      j.2.2.2).members.keys.count u = 1 := by
    rw [upsertMember_members, JsMap.count_keys_set_of_none _ hbase, hbcount]
  obtain ⟨room', mem', hg, hm, hc, hjb, hsb⟩ := joinSeq_preserves hr hu js _ _
    ⟨u, jsOrStr j.2.1 "Anonymous", j.1, j.2.2.2⟩ hget1 hmem1 hcount1
  refine ⟨room', mem', hg, hm, hc, hjb, ?_⟩
  rw [hsb, lastSocket_cons]

/-- C4, witness: user `"u"` joins the fresh room `"r"` from socket
`"s1"`, then re-joins from `"s2"`: one entry, `joinedAt` from the first
join (`"T1"`), socket id from the most recent (`"s2"`). -/
theorem join_dedup_spec_witness :
    ∃ room' mem,
      (joinSeq initState "r" "u"
        [("s1", "alice", 1000, "T1"), ("s2", "alice", 2000, "T2")]).rooms.get "r" =
        some room' ∧
      room'.members.get "u" = some mem ∧
      room'.members.keys.count "u" = 1 ∧
      mem.joinedAt = "T1" ∧
      mem.socketId = "s2" := by
  obtain ⟨room', mem, h1, h2, h3, h4, h5⟩ := @join_dedup_spec initState "r"
    "u" (by decide) (by decide)
    (fun room h => by simp [initState, JsMap.get] at h)
    ("s1", "alice", 1000, "T1") [("s2", "alice", 2000, "T2")]
  exact ⟨room', mem, h1, h2, h3, h4, h5⟩
